import Mathlib

/-
  Verification development for the VCC-URN repository.

  Modelling conventions, used throughout:
  * Python strings are modelled as lists of UTF-8 code units (natural numbers,
    bytes below 256).  The claims speak about byte-identical component values,
    so the byte level is the natural level of the embedding.  All regular
    expression character classes appearing in the source are ASCII-only, so
    matching on code units agrees with matching on code points.
  * Python functions that raise exceptions are modelled with Option or Except.
  * Calls into the Python standard library (urllib.parse.quote / unquote,
    uuid.UUID, str.split, str.strip, str.lower, int(.., 16), json.loads) are
    modelled from the documented CPython semantics of those functions.
    str.strip and str.lower are modelled on ASCII data (the validated fields
    are constrained to ASCII by the grammar).
  * The module vcc_urn.runtime referenced by vcc_urn/services/urn.py is
    vcc_urn/core/runtime.py, and vcc_urn.federation referenced by
    vcc_urn/services/urn_service.py is vcc_urn/services/federation.py
    (the only such modules in the repository).
-/

namespace VccUrn

/-- Python strings viewed as their UTF-8 code units. -/
abbrev Bytes := List Nat

/-- Code units of an ASCII string literal (used to transliterate the string
literals of the source). -/
def asciiBytes (s : String) : Bytes := s.data.map Char.toNat

/-! ### ASCII character classes of the URN regular expression

The pattern in vcc_urn/urn.py (and identically in vcc_urn/services/urn.py):

  urn:(?P<nid>[a-z0-9-]{1,32}):(?P<state>[a-z]{2,3}):(?P<domain>[a-z0-9-]+):
  (?P<obj_type>[a-z0-9-]+):(?P<local>[A-Za-z0-9%-._~!*();:@&=+$,/ and quote]+):
  (?P<uuid>[0-9a-fA-F-]{36})(?::(?P<version>v[0-9A-Za-z-.]+))?$
-/

def isUpperB (b : Nat) : Bool := decide (65 ≤ b ∧ b ≤ 90)

def isLowerB (b : Nat) : Bool := decide (97 ≤ b ∧ b ≤ 122)

def isDigitB (b : Nat) : Bool := decide (48 ≤ b ∧ b ≤ 57)

def isAlphaB (b : Nat) : Bool := isUpperB b || isLowerB b

/-- Class [a-z0-9-] of the nid, domain and obj_type groups. -/
def isNidB (b : Nat) : Bool := isLowerB b || isDigitB b || b == 45

/-- Class of the local group: percent sign, alphanumerics and
- . _ ~ ! * quote ( ) ; : @ & = + $ , / (bytes listed numerically). -/
def isLocalB (b : Nat) : Bool :=
  isAlphaB b || isDigitB b ||
    [37, 45, 46, 95, 126, 33, 42, 39, 40, 41, 59, 58, 64, 38, 61, 43, 36, 44, 47].contains b

/-- Class [0-9a-fA-F-] of the uuid group. -/
def isUuidChB (b : Nat) : Bool :=
  isDigitB b || decide (97 ≤ b ∧ b ≤ 102) || decide (65 ≤ b ∧ b ≤ 70) || b == 45

/-- Class [0-9A-Za-z-.] of the version group body. -/
def isVersChB (b : Nat) : Bool := isAlphaB b || isDigitB b || b == 45 || b == 46

/-! ### Percent encoding (urllib.parse.quote / unquote)

quote(s, safe="A-Za-z0-9-_~.!* ( ) ; : @ & = + $ , /") never encodes ASCII
alphanumerics and _ . - ~ (the always-safe set) nor the characters of the safe
parameter; every other byte of the UTF-8 encoding becomes a percent escape
with uppercase hexadecimal digits.  unquote decodes percent escapes (either
case of hex digits) back to bytes; a percent sign not followed by two hex
digits is kept literally. -/

/-- The set of bytes quote leaves unescaped: alphanumerics plus
- _ ~ . ! * quote ( ) ; : @ & = + $ , / . -/
def isQuoteSafeB (b : Nat) : Bool :=
  isAlphaB b || isDigitB b ||
    [45, 95, 126, 46, 33, 42, 39, 40, 41, 59, 58, 64, 38, 61, 43, 36, 44, 47].contains b

/-- Uppercase hexadecimal digit of a value below 16 (as a byte). -/
def hexUpperDigit (n : Nat) : Nat := if n < 10 then 48 + n else 55 + n

/-- Value of a hexadecimal digit byte, either case. -/
def hexValB (b : Nat) : Option Nat :=
  if 48 ≤ b ∧ b ≤ 57 then some (b - 48)
  else if 65 ≤ b ∧ b ≤ 70 then some (b - 55)
  else if 97 ≤ b ∧ b ≤ 102 then some (b - 87)
  else none

/-- urllib.parse.quote with the safe set used by URN.generate. -/
def pyQuote (bs : Bytes) : Bytes :=
  bs.flatMap fun b =>
    if isQuoteSafeB b then [b] else [37, hexUpperDigit (b / 16), hexUpperDigit (b % 16)]

/-- urllib.parse.unquote at the byte level: decodes percent escapes (two hex
digits of either case after a percent sign, byte 37); a percent sign not
followed by two hex digits is kept literally. -/
def pyUnquote : Bytes → Bytes
  | [] => []
  | 37 :: h1 :: h2 :: rest2 =>
    match hexValB h1, hexValB h2 with
    | some x, some y => (16 * x + y) :: pyUnquote rest2
    | _, _ => 37 :: pyUnquote (h1 :: h2 :: rest2)
  | b :: rest => b :: pyUnquote rest

theorem pyUnquote_nil : pyUnquote [] = [] := rfl

theorem pyUnquote_cons_of_ne (b : Nat) (l : Bytes) (h : b ≠ 37) :
    pyUnquote (b :: l) = b :: pyUnquote l := by
  rw [pyUnquote.eq_def]
  split
  · rename_i heq
    cases heq
  · rename_i heq
    first
      | exact absurd rfl h
      | (injection heq with hb ht; exact absurd hb h)
  · rename_i heq
    injection heq with hb hl
    subst hb
    subst hl
    rfl

theorem pyUnquote_escape (h1 h2 : Nat) (l : Bytes) (x y : Nat)
    (hx : hexValB h1 = some x) (hy : hexValB h2 = some y) :
    pyUnquote (37 :: h1 :: h2 :: l) = (16 * x + y) :: pyUnquote l := by
  rw [pyUnquote.eq_def]
  simp [hx, hy]

theorem hexValB_hexUpperDigit : ∀ n < 16, hexValB (hexUpperDigit n) = some n := by decide

theorem quoteSafe_not_37 : isQuoteSafeB 37 = false := by decide

theorem pyQuote_cons_safe (b : Nat) (rest : Bytes) (hs : isQuoteSafeB b) :
    pyQuote (b :: rest) = b :: pyQuote rest := by
  simp [pyQuote, hs]

theorem pyQuote_cons_escape (b : Nat) (rest : Bytes) (hs : ¬ isQuoteSafeB b) :
    pyQuote (b :: rest) =
      37 :: hexUpperDigit (b / 16) :: hexUpperDigit (b % 16) :: pyQuote rest := by
  simp [pyQuote, hs]

/-- Percent decoding inverts percent encoding on byte strings. -/
theorem pyUnquote_pyQuote (bs : Bytes) (h : ∀ b ∈ bs, b < 256) :
    pyUnquote (pyQuote bs) = bs := by
  induction bs with
  | nil => simp [pyQuote, pyUnquote_nil]
  | cons b rest ih =>
    have hb : b < 256 := h b (List.mem_cons_self ..)
    have hrest : ∀ x ∈ rest, x < 256 := fun x hx => h x (List.mem_cons_of_mem _ hx)
    by_cases hs : isQuoteSafeB b
    · have hb37 : b ≠ 37 := by
        intro e; rw [e] at hs; simp [quoteSafe_not_37] at hs
      rw [pyQuote_cons_safe _ _ hs, pyUnquote_cons_of_ne _ _ hb37, ih hrest]
    · have hdiv : b / 16 < 16 := by omega
      have hmod : b % 16 < 16 := by omega
      rw [pyQuote_cons_escape _ _ hs,
        pyUnquote_escape _ _ _ _ _ (hexValB_hexUpperDigit _ hdiv) (hexValB_hexUpperDigit _ hmod)]
      have hbb : 16 * (b / 16) + b % 16 = b := by omega
      rw [hbb, ih hrest]

set_option maxRecDepth 2000 in
theorem quoteSafe_local : ∀ b < 256, isQuoteSafeB b → isLocalB b := by decide

theorem hexUpperDigit_local : ∀ n < 16, isLocalB (hexUpperDigit n) := by decide

/-- Every byte of a quoted string is in the local character class. -/
theorem pyQuote_mem_local (bs : Bytes) (h : ∀ b ∈ bs, b < 256) :
    ∀ c ∈ pyQuote bs, isLocalB c = true := by
  intro c hc
  simp only [pyQuote, List.mem_flatMap] at hc
  obtain ⟨b, hb, hcb⟩ := hc
  have hb256 := h b hb
  by_cases hs : isQuoteSafeB b
  · simp [hs] at hcb
    exact hcb ▸ quoteSafe_local b hb256 hs
  · simp [hs] at hcb
    rcases hcb with h1 | h2 | h3
    · subst h1; decide
    · exact h2 ▸ hexUpperDigit_local _ (by omega)
    · exact h3 ▸ hexUpperDigit_local _ (by omega)

/-- Quoting a non-empty byte string is non-empty. -/
theorem pyQuote_ne_nil (bs : Bytes) (h : bs ≠ []) : pyQuote bs ≠ [] := by
  cases bs with
  | nil => exact absurd rfl h
  | cons b rest =>
    simp only [pyQuote, List.flatMap_cons]
    by_cases hs : isQuoteSafeB b <;> simp [hs]

/-! ### The URN regular expression (URN._pattern of vcc_urn/urn.py)

The pattern is anchored on both sides.  The groups before the local group are
runs of character classes that do not contain the colon, each followed by a
literal colon, so greedy matching with backtracking is equivalent to taking
the maximal run and requiring a colon after it (shortening a run can never
help, because the character after a shortened run would be a class character,
never the required colon).  The local class does contain the colon, so for
the tail `local+ : uuid{36} (: version)?` the matcher below implements the
actual greedy backtracking order of the regex engine: extend the local run
first, and on failure stop it and try to read the colon, the 36 uuid
characters and the optional version group at the current position. -/

/-- Result of matching the URN pattern: the six capture groups (local still
percent-encoded). -/
structure RegexGroups where
  nid : Bytes
  state : Bytes
  domain : Bytes
  obj_type : Bytes
  localRaw : Bytes
  uuid : Bytes
  version : Option Bytes
deriving DecidableEq, Repr

/-- The version group `v[0-9A-Za-z-.]+`, which must consume the rest of the
input (the pattern is anchored). -/
def matchVersion (vs : Bytes) : Bool :=
  match vs with
  | 118 :: tail => !tail.isEmpty && tail.all isVersChB
  | _ => false

/-- Matches `:` then the uuid group `[0-9a-fA-F-]{36}` then either the end of
the input or `:` and the version group. -/
def matchUuidVer (cs : Bytes) : Option (Bytes × Option Bytes) :=
  match cs with
  | c :: rest =>
    if c = 58 then
      let u := rest.take 36
      if u.length = 36 ∧ u.all isUuidChB = true then
        match rest.drop 36 with
        | [] => some (u, none)
        | d :: vs => if d = 58 ∧ matchVersion vs = true then some (u, some vs) else none
      else none
    else none
  | [] => none

/-- Greedy continuation of the local group: matches `local* : uuid (: ver)?`,
preferring to extend the local run (the backtracking order of the engine). -/
def goLocal : Bytes → Option (Bytes × Bytes × Option Bytes)
  | [] => none
  | c :: rest =>
    if isLocalB c then
      match goLocal rest with
      | some (l, u, v) => some (c :: l, u, v)
      | none => (matchUuidVer (c :: rest)).map fun p => ([], p.1, p.2)
    else
      (matchUuidVer (c :: rest)).map fun p => ([], p.1, p.2)

/-- Matches the anchored tail `local+ : uuid (: ver)?`. -/
def matchTail (cs : Bytes) : Option (Bytes × Bytes × Option Bytes) :=
  match cs with
  | c :: rest =>
    if isLocalB c then (goLocal rest).map fun p => (c :: p.1, p.2.1, p.2.2) else none
  | [] => none

/-- A class run with bounded length followed by a literal colon (equivalent
to the greedy regex because the class never contains the colon); hi = none
for an unbounded `+` repetition. -/
def reqSeg (p : Nat → Bool) (lo : Nat) (hi : Option Nat) (cs : Bytes) : Option (Bytes × Bytes) :=
  let seg := cs.takeWhile p
  match cs.dropWhile p with
  | c :: r =>
    if c == 58 && decide (lo ≤ seg.length) && hi.all (fun n => decide (seg.length ≤ n))
    then some (seg, r) else none
  | [] => none

/-- Full match of URN._pattern against an input. -/
def urnMatch (cs : Bytes) : Option RegexGroups :=
  match cs with
  | 117 :: 114 :: 110 :: 58 :: rest =>
    (reqSeg isNidB 1 (some 32) rest).bind fun pn =>
    (reqSeg isLowerB 2 (some 3) pn.2).bind fun ps =>
    (reqSeg isNidB 1 none ps.2).bind fun pd =>
    (reqSeg isNidB 1 none pd.2).bind fun po =>
    (matchTail po.2).map fun pt =>
      ⟨pn.1, ps.1, pd.1, po.1, pt.1, pt.2.1, pt.2.2⟩
  | _ => none

/-- Parsed URN components; local_aktenzeichen is percent-decoded
(URNComponents of vcc_urn/urn.py). -/
structure URNComponents where
  nid : Bytes
  state : Bytes
  domain : Bytes
  obj_type : Bytes
  local_aktenzeichen : Bytes
  uuid : Bytes
  version : Option Bytes
deriving DecidableEq, Repr

/-- URN._parse of vcc_urn/urn.py: match the pattern (ValueError on failure)
and build the components, percent-decoding the local group. -/
def urnParse (cs : Bytes) : Option URNComponents :=
  (urnMatch cs).map fun g =>
    ⟨g.nid, g.state, g.domain, g.obj_type, pyUnquote g.localRaw, g.uuid, g.version⟩

/-! ### str.strip, str.lower, str.upper (on ASCII data) -/

/-- ASCII whitespace bytes (str.strip with no argument; the additional
Unicode whitespace code points are outside the ASCII data handled here). -/
def isPyWsB (b : Nat) : Bool :=
  decide (b = 9 ∨ b = 10 ∨ b = 11 ∨ b = 12 ∨ b = 13 ∨ b = 32)

/-- str.strip(): remove whitespace from both ends. -/
def pyStrip (bs : Bytes) : Bytes :=
  ((bs.dropWhile isPyWsB).reverse.dropWhile isPyWsB).reverse

/-- str.lower() on one ASCII byte. -/
def pyLowerByte (b : Nat) : Nat := if isUpperB b then b + 32 else b

/-- str.lower() (ASCII; non-ASCII bytes unchanged). -/
def pyLower (bs : Bytes) : Bytes := bs.map pyLowerByte

/-- str.upper() on one ASCII byte. -/
def pyUpperByte (b : Nat) : Nat := if isLowerB b then b - 32 else b

/-- str.upper() (ASCII; non-ASCII bytes unchanged). -/
def pyUpper (bs : Bytes) : Bytes := bs.map pyUpperByte

/-- `.strip().lower()`, the normalization applied by generate. -/
def normToken (bs : Bytes) : Bytes := pyLower (pyStrip bs)

/-! ### uuid.UUID(hex=s) and str(uuid.UUID(..)) of the Python standard library

The constructor removes every occurrence of `urn:` and then of `uuid:`,
strips curly braces from both ends, removes all hyphens, requires exactly 32
remaining characters, parses them with int(.., 16) and checks the 128-bit
range; str() renders the 128-bit value as 32 lowercase hex digits grouped
8-4-4-4-12 with hyphens. -/

theorem isPrefixOf_length_le {pat s : Bytes} (h : pat.isPrefixOf s = true) :
    pat.length ≤ s.length := by
  induction pat generalizing s with
  | nil => simp
  | cons a as ih =>
    cases s with
    | nil => simp [List.isPrefixOf] at h
    | cons b bs =>
      simp only [List.isPrefixOf, Bool.and_eq_true] at h
      have := ih h.2
      simp [List.length_cons]
      omega

theorem length_pos_of_ne_nil {l : Bytes} (h : l ≠ []) : 0 < l.length := by
  cases l with
  | nil => exact absurd rfl h
  | cons a as => simp

/-- Scanning step of str.replace(pat, empty string): at each position, if pat
is a prefix, drop it and continue after it, else keep the byte.  The fuel is
an upper bound on the number of scanning steps; each step consumes at least
one byte, so the length of the input suffices. -/
def removeOccFuel (pat : Bytes) : Nat → Bytes → Bytes
  | _, [] => []
  | 0, s => s
  | fuel + 1, c :: r =>
    if pat ≠ [] ∧ pat.isPrefixOf (c :: r) then
      removeOccFuel pat fuel ((c :: r).drop pat.length)
    else c :: removeOccFuel pat fuel r

/-- str.replace(pat, empty string): remove every occurrence of pat, scanning
left to right without overlap. -/
def removeOcc (pat s : Bytes) : Bytes := removeOccFuel pat s.length s

/-- str.strip with the two brace characters: remove braces from both ends. -/
def isBraceB (b : Nat) : Bool := b == 123 || b == 125

def stripBraces (s : Bytes) : Bytes :=
  ((s.dropWhile isBraceB).reverse.dropWhile isBraceB).reverse

/-- Hex digits, with single underscores (byte 95) allowed between digits,
accumulating the value; the whole rest of the input must belong to the digit
run. -/
def hexRun (acc : Nat) : Bytes → Option Nat
  | [] => some acc
  | c :: rest =>
    if c = 95 then
      match rest with
      | d :: rest2 =>
        match hexValB d with
        | some v => hexRun (16 * acc + v) rest2
        | none => none
      | [] => none
    else
      match hexValB c with
      | some v => hexRun (16 * acc + v) rest
      | none => none

/-- Digit run that must start with a hex digit (no leading underscore). -/
def hexRunFirst : Bytes → Option Nat
  | d :: rest => (hexValB d).bind fun v => hexRun v rest
  | [] => none

/-- int(s, 16) after the sign: an optional 0x or 0X prefix (an underscore may
directly follow it), then the digit run. -/
def pyInt16Core (s : Bytes) : Option Nat :=
  match s with
  | c0 :: x :: rest =>
    if c0 = 48 ∧ (x = 120 ∨ x = 88) then
      match rest with
      | u :: rest2 =>
        if u = 95 then
          match rest2 with
          | d :: r2 => (hexValB d).bind fun v => hexRun v r2
          | [] => none
        else hexRunFirst (u :: rest2)
      | [] => none
    else hexRunFirst (c0 :: x :: rest)
  | _ => hexRunFirst s

/-- int(s, 16): optional whitespace on both ends, an optional plus sign (a
minus sign cannot reach this call site: uuid.UUID removes all hyphens
beforehand), prefix and digit run as above. -/
def pyInt16 (s : Bytes) : Option Nat :=
  let t := ((s.dropWhile isPyWsB).reverse.dropWhile isPyWsB).reverse
  match t with
  | c :: rest => if c = 43 then pyInt16Core rest else pyInt16Core (c :: rest)
  | [] => pyInt16Core []

/-- Lowercase hex digit byte of a value below 16. -/
def lowerHexDigit (n : Nat) : Nat := if n < 10 then 48 + n else 87 + n

/-- Low k hex digits of v, most significant first (the %032x padding). -/
def natToHexAux : Nat → Nat → Bytes
  | 0, _ => []
  | k + 1, v => natToHexAux k (v / 16) ++ [lowerHexDigit (v % 16)]

def natToHex32 (v : Nat) : Bytes := natToHexAux 32 v

/-- Group 32 hex digits as 8-4-4-4-12 with hyphens (the str() form). -/
def insertDashes (h : Bytes) : Bytes :=
  h.take 8 ++ 45 :: ((h.drop 8).take 4 ++ 45 :: ((h.drop 12).take 4 ++ 45 ::
    ((h.drop 16).take 4 ++ 45 :: h.drop 20)))

/-- str(uuid.UUID(s)): none when the constructor raises ValueError. -/
def pyUuidCanon (s : Bytes) : Option Bytes :=
  let h1 := removeOcc (asciiBytes "uuid:") (removeOcc (asciiBytes "urn:") s)
  let h2 := stripBraces h1
  let h3 := h2.filter fun b => b != 45
  if h3.length = 32 then
    (pyInt16 h3).bind fun v => if v < 2 ^ 128 then some (insertDashes (natToHex32 v)) else none
  else none

/-- The uuid used by URN.generate: `if uuid_str: str(UUID(uuid_str)) else
str(uuid4())`; the fresh argument stands for the output of uuid.uuid4(),
which is always in canonical form. -/
def pyGenUuid (uuidStr : Option Bytes) (fresh : Bytes) : Option Bytes :=
  match uuidStr with
  | some s => if s.isEmpty then some fresh else pyUuidCanon s
  | none => some fresh

/-- Lowercase hex digit class (the bytes appearing in a canonical uuid apart
from the hyphens). -/
def isLowerHexB (b : Nat) : Bool := isDigitB b || decide (97 ≤ b ∧ b ≤ 102)

/-- Canonical uuid string: 32 lowercase hex digits grouped 8-4-4-4-12 by
hyphens (the shape produced by str(uuid.UUID(..)) and uuid.uuid4()). -/
def IsCanonicalUuid (s : Bytes) : Prop :=
  ∃ a b c d e : Bytes,
    s = a ++ 45 :: (b ++ 45 :: (c ++ 45 :: (d ++ 45 :: e))) ∧
    a.length = 8 ∧ b.length = 4 ∧ c.length = 4 ∧ d.length = 4 ∧ e.length = 12 ∧
    (a ++ b ++ c ++ d ++ e).all isLowerHexB = true

/-! ### URN.generate of vcc_urn/urn.py -/

/-- A parsed URN value: the raw string and its components. -/
structure URNVal where
  raw : Bytes
  components : URNComponents
deriving DecidableEq, Repr

/-- URN.generate: normalize the fields, percent-encode the local reference,
take the supplied uuid through uuid.UUID (or the fresh uuid4 value), assemble
the canonical string and parse it (the constructor runs _parse, so a failing
catalog or grammar check raises).  none models a raised ValueError. -/
def urnGenerate (state domain obj_type : Bytes) (localBytes : Bytes)
    (uuidStr : Option Bytes) (fresh : Bytes) (version : Option Bytes)
    (nid : Bytes) : Option URNVal :=
  let state_n := normToken state
  let domain_n := normToken domain
  let obj_type_n := normToken obj_type
  let local_enc := pyQuote localBytes
  (pyGenUuid uuidStr fresh).bind fun u =>
    let urn_str := [117, 114, 110, 58] ++ nid ++ 58 :: (state_n ++ 58 :: (domain_n ++ 58 ::
      (obj_type_n ++ 58 :: (local_enc ++ 58 :: (u ++
        (match version with | some v => if v.isEmpty then [] else 58 :: v | none => []))))))
    (urnParse urn_str).map fun comps => ⟨urn_str, comps⟩

/-! ### Round-trip lemmas -/

theorem takeWhile_append_stop (p : Nat → Bool) (l1 : Bytes) (c : Nat) (l2 : Bytes)
    (h1 : l1.all p = true) (hc : p c = false) :
    (l1 ++ c :: l2).takeWhile p = l1 ∧ (l1 ++ c :: l2).dropWhile p = c :: l2 := by
  induction l1 with
  | nil => simp [List.takeWhile, List.dropWhile, hc]
  | cons a as ih =>
    simp only [List.all_cons, Bool.and_eq_true] at h1
    have := ih h1.2
    simp [List.takeWhile, List.dropWhile, h1.1, this.1, this.2]

theorem reqSeg_all (p : Nat → Bool) (lo : Nat) (hi : Option Nat) (l1 : Bytes) (l2 : Bytes)
    (h1 : l1.all p = true) (h58 : p 58 = false)
    (hlo : lo ≤ l1.length) (hhi : hi.all (fun n => decide (l1.length ≤ n)) = true) :
    reqSeg p lo hi (l1 ++ 58 :: l2) = some (l1, l2) := by
  have hsplit := takeWhile_append_stop p l1 58 l2 h1 h58
  simp only [reqSeg, hsplit.1, hsplit.2]
  simp [hlo, hhi]

theorem uuidCh_ne_58 (b : Nat) (h : isUuidChB b = true) : b ≠ 58 := by
  intro e
  subst e
  simp [isUuidChB, isDigitB] at h

theorem versCh_ne_58 (b : Nat) (h : isVersChB b = true) : b ≠ 58 := by
  intro e
  subst e
  simp [isVersChB, isDigitB, isAlphaB, isUpperB, isLowerB] at h

theorem lowerHex_uuidCh (b : Nat) (h : isLowerHexB b = true) : isUuidChB b = true := by
  simp only [isLowerHexB, isDigitB, Bool.or_eq_true, decide_eq_true_eq] at h
  simp only [isUuidChB, isDigitB, Bool.or_eq_true, decide_eq_true_eq]
  omega

theorem matchUuidVer_not58 (c : Nat) (rest : Bytes) (h : c ≠ 58) :
    matchUuidVer (c :: rest) = none := by
  simp [matchUuidVer, h]

theorem goLocal_no58 (s : Bytes) (h : ∀ c ∈ s, c ≠ 58) : goLocal s = none := by
  induction s with
  | nil => rfl
  | cons c rest ih =>
    have hc : c ≠ 58 := h c (List.mem_cons_self ..)
    have hrest := ih fun x hx => h x (List.mem_cons_of_mem _ hx)
    simp [goLocal, hrest, matchUuidVer_not58 c rest hc]

theorem goLocal_append_none (u x : Bytes) (hu : ∀ c ∈ u, c ≠ 58) (hx : goLocal x = none) :
    goLocal (u ++ x) = none := by
  induction u with
  | nil => simpa using hx
  | cons c rest ih =>
    have hc : c ≠ 58 := hu c (List.mem_cons_self ..)
    have hrest := ih fun y hy => hu y (List.mem_cons_of_mem _ hy)
    simp [goLocal, hrest, matchUuidVer_not58 c _ hc]

/-- The shape of the optional version tail appended after the uuid: nothing,
or a colon and a valid version group. -/
def VersionTail (vtail : Bytes) (v : Option Bytes) : Prop :=
  (vtail = [] ∧ v = none) ∨
    (∃ vs, vtail = 58 :: vs ∧ matchVersion vs = true ∧ v = some vs)

theorem matchVersion_shape (vs : Bytes) (h : matchVersion vs = true) :
    ∃ t, vs = 118 :: t ∧ t ≠ [] ∧ t.all isVersChB = true := by
  match vs with
  | [] => simp [matchVersion] at h
  | c :: t =>
    rw [matchVersion.eq_def] at h
    split at h
    · rename_i heq
      injection heq with hc ht
      subst hc
      subst ht
      simp only [Bool.and_eq_true, Bool.not_eq_true'] at h
      obtain ⟨h1, h2⟩ := h
      refine ⟨t, rfl, fun he => ?_, h2⟩
      subst he
      simp at h1
    · cases h

theorem matchVersion_no58 (vs : Bytes) (h : matchVersion vs = true) : ∀ c ∈ vs, c ≠ 58 := by
  obtain ⟨t, rfl, _, hall⟩ := matchVersion_shape vs h
  intro c hc
  rcases List.mem_cons.mp hc with rfl | hmem
  · omega
  · exact versCh_ne_58 c (by
      have := List.all_eq_true.mp hall
      exact this c hmem)

theorem goLocal_version_none (vtail : Bytes) (v : Option Bytes) (h : VersionTail vtail v) :
    goLocal vtail = none := by
  rcases h with ⟨rfl, _⟩ | ⟨vs, rfl, hm, _⟩
  · rfl
  · obtain ⟨t, rfl, hne, _⟩ := matchVersion_shape vs hm
    have hrest : goLocal (118 :: t) = none :=
      goLocal_no58 _ (matchVersion_no58 _ hm)
    have hstop : matchUuidVer (58 :: 118 :: t) = none := by
      simp only [matchUuidVer, if_pos rfl]
      have htake : (118 :: t).take 36 = 118 :: t.take 35 := by simp [List.take_cons]
      rw [htake]
      simp [isUuidChB, isDigitB]
    rw [goLocal.eq_def]
    simp only [show isLocalB 58 = true from by decide, if_pos]
    rw [hrest, hstop]
    rfl

theorem matchUuidVer_exact (u vtail : Bytes) (v : Option Bytes)
    (hu36 : u.length = 36) (huall : u.all isUuidChB = true) (hv : VersionTail vtail v) :
    matchUuidVer (58 :: (u ++ vtail)) = some (u, v) := by
  have htake : (u ++ vtail).take 36 = u := by
    rw [← hu36]
    exact List.take_left u vtail
  have hdrop : (u ++ vtail).drop 36 = vtail := by
    rw [← hu36]
    exact List.drop_left u vtail
  simp only [matchUuidVer, if_pos rfl]
  rw [htake, hdrop]
  have hcond : u.length = 36 ∧ u.all isUuidChB = true := ⟨hu36, huall⟩
  rw [if_pos hcond]
  rcases hv with ⟨rfl, rfl⟩ | ⟨vs, rfl, hm, rfl⟩
  · rfl
  · simp [hm]

theorem goLocal_main (enc u vtail : Bytes) (v : Option Bytes)
    (hencLocal : ∀ c ∈ enc, isLocalB c = true)
    (hu36 : u.length = 36) (huall : u.all isUuidChB = true)
    (hv : VersionTail vtail v) :
    goLocal (enc ++ 58 :: (u ++ vtail)) = some (enc, u, v) := by
  induction enc with
  | nil =>
    have hu58 : ∀ c ∈ u, c ≠ 58 := fun c hc =>
      uuidCh_ne_58 c (List.all_eq_true.mp huall c hc)
    have hinner : goLocal (u ++ vtail) = none :=
      goLocal_append_none u vtail hu58 (goLocal_version_none vtail v hv)
    have hstop := matchUuidVer_exact u vtail v hu36 huall hv
    simp only [List.nil_append]
    rw [goLocal.eq_def]
    simp [hinner, hstop]
  | cons c rest ih =>
    have hc : isLocalB c = true := hencLocal c (List.mem_cons_self ..)
    have hrest := ih fun x hx => hencLocal x (List.mem_cons_of_mem _ hx)
    simp [goLocal, hc, hrest]

theorem matchTail_main (enc u vtail : Bytes) (v : Option Bytes)
    (hne : enc ≠ [])
    (hencLocal : ∀ c ∈ enc, isLocalB c = true)
    (hu36 : u.length = 36) (huall : u.all isUuidChB = true)
    (hv : VersionTail vtail v) :
    matchTail (enc ++ 58 :: (u ++ vtail)) = some (enc, u, v) := by
  match enc, hne with
  | e0 :: enc2, _ =>
    have he0 : isLocalB e0 = true := hencLocal e0 (List.mem_cons_self ..)
    have hrest := goLocal_main enc2 u vtail v
      (fun x hx => hencLocal x (List.mem_cons_of_mem _ hx)) hu36 huall hv
    simp [matchTail, he0, hrest]

theorem isCanonicalUuid_length {u : Bytes} (h : IsCanonicalUuid u) : u.length = 36 := by
  obtain ⟨a, b, c, d, e, rfl, ha, hb, hc, hd, he, _⟩ := h
  simp [List.length_append, ha, hb, hc, hd, he]

theorem isCanonicalUuid_all {u : Bytes} (h : IsCanonicalUuid u) :
    u.all isUuidChB = true := by
  obtain ⟨a, b, c, d, e, rfl, _, _, _, _, _, hall⟩ := h
  simp only [List.append_assoc, List.all_append, Bool.and_eq_true] at hall
  have h45 : isUuidChB 45 = true := by decide
  obtain ⟨h1, h2, h3, h4, h5⟩ := hall
  simp only [List.all_append, List.all_cons, Bool.and_eq_true]
  refine ⟨?_, h45, ?_, h45, ?_, h45, ?_, h45, ?_⟩ <;>
    exact List.all_eq_true.mpr fun x hx => lowerHex_uuidCh x
      (List.all_eq_true.mp (by assumption) x hx)

/-- Parsing the string assembled by generate recovers exactly the assembled
groups: the prefix segments because their classes exclude the colon, and the
local/uuid/version split because the uuid group has fixed width 36, contains
no colon, and a version group never starts with a hex digit. -/
theorem urnParse_assembled
    (state domain obj_type localBytes u : Bytes) (version : Option Bytes)
    (vtail : Bytes) (nid : Bytes)
    (hnid_all : nid.all isNidB = true)
    (hnid_len : 1 ≤ nid.length ∧ nid.length ≤ 32)
    (hstate_all : (normToken state).all isLowerB = true)
    (hstate_len : 2 ≤ (normToken state).length ∧ (normToken state).length ≤ 3)
    (hdom_all : (normToken domain).all isNidB = true)
    (hdom_ne : normToken domain ≠ [])
    (hobj_all : (normToken obj_type).all isNidB = true)
    (hobj_ne : normToken obj_type ≠ [])
    (hloc_ne : localBytes ≠ [])
    (hloc256 : ∀ b ∈ localBytes, b < 256)
    (hu36 : u.length = 36)
    (huall : u.all isUuidChB = true)
    (hvt : VersionTail vtail version) :
    urnParse ([117, 114, 110, 58] ++ nid ++ 58 :: (normToken state ++ 58 ::
      (normToken domain ++ 58 :: (normToken obj_type ++ 58 ::
      (pyQuote localBytes ++ 58 :: (u ++ vtail)))))) =
    some ⟨nid, normToken state, normToken domain, normToken obj_type,
      localBytes, u, version⟩ := by
  have hencL : ∀ c ∈ pyQuote localBytes, isLocalB c = true :=
    pyQuote_mem_local localBytes hloc256
  have hencNe : pyQuote localBytes ≠ [] := pyQuote_ne_nil localBytes hloc_ne
  set r4 : Bytes := pyQuote localBytes ++ 58 :: (u ++ vtail) with hr4
  set r3 : Bytes := normToken obj_type ++ 58 :: r4 with hr3
  set r2 : Bytes := normToken domain ++ 58 :: r3 with hr2
  set r1 : Bytes := normToken state ++ 58 :: r2 with hr1
  have htail : matchTail r4 = some (pyQuote localBytes, u, version) :=
    matchTail_main (pyQuote localBytes) u vtail version hencNe hencL hu36 huall hvt
  have hseg4 : reqSeg isNidB 1 none r3 = some (normToken obj_type, r4) :=
    reqSeg_all isNidB 1 none (normToken obj_type) r4 hobj_all (by decide)
      (length_pos_of_ne_nil hobj_ne) (by simp [Option.all])
  have hseg3 : reqSeg isNidB 1 none r2 = some (normToken domain, r3) :=
    reqSeg_all isNidB 1 none (normToken domain) r3 hdom_all (by decide)
      (length_pos_of_ne_nil hdom_ne) (by simp [Option.all])
  have hseg2 : reqSeg isLowerB 2 (some 3) r1 = some (normToken state, r2) :=
    reqSeg_all isLowerB 2 (some 3) (normToken state) r2 hstate_all (by decide)
      hstate_len.1 (by simpa [Option.all] using hstate_len.2)
  have hseg1 : reqSeg isNidB 1 (some 32) (nid ++ 58 :: r1) = some (nid, r1) :=
    reqSeg_all isNidB 1 (some 32) nid r1 hnid_all (by decide)
      hnid_len.1 (by simpa [Option.all] using hnid_len.2)
  have hmatch : urnMatch (117 :: 114 :: 110 :: 58 :: (nid ++ 58 :: r1)) =
      some ⟨nid, normToken state, normToken domain, normToken obj_type,
        pyQuote localBytes, u, version⟩ := by
    simp only [urnMatch, hseg1, Option.some_bind, hseg2, hseg3, hseg4, htail,
      Option.map_some']
  show urnParse (117 :: 114 :: 110 :: 58 :: (nid ++ 58 :: r1)) = _
  simp only [urnParse, hmatch, Option.map_some']
  simp [pyUnquote_pyQuote localBytes hloc256]

/-- Core round-trip fact about URN.generate of vcc_urn/urn.py, shared by the
claims below. -/
theorem urnGenerate_roundTrip
    (state domain obj_type localBytes : Bytes) (uuidStr : Option Bytes)
    (fresh : Bytes) (version : Option Bytes) (nid u : Bytes)
    (hnid_all : nid.all isNidB = true)
    (hnid_len : 1 ≤ nid.length ∧ nid.length ≤ 32)
    (hstate_all : (normToken state).all isLowerB = true)
    (hstate_len : 2 ≤ (normToken state).length ∧ (normToken state).length ≤ 3)
    (hdom_all : (normToken domain).all isNidB = true)
    (hdom_ne : normToken domain ≠ [])
    (hobj_all : (normToken obj_type).all isNidB = true)
    (hobj_ne : normToken obj_type ≠ [])
    (hloc_ne : localBytes ≠ [])
    (hloc256 : ∀ b ∈ localBytes, b < 256)
    (huuid : pyGenUuid uuidStr fresh = some u)
    (hcanon : IsCanonicalUuid u)
    (hver : ∀ vs, version = some vs → matchVersion vs = true) :
    ∃ r : URNVal,
      urnGenerate state domain obj_type localBytes uuidStr fresh version nid = some r ∧
      r.components = ⟨nid, normToken state, normToken domain, normToken obj_type,
        localBytes, u, version⟩ ∧
      urnParse r.raw = some r.components := by
  rcases version with _ | vs
  · have haux := urnParse_assembled state domain obj_type localBytes u none [] nid
      hnid_all hnid_len hstate_all hstate_len hdom_all hdom_ne hobj_all hobj_ne
      hloc_ne hloc256 (isCanonicalUuid_length hcanon) (isCanonicalUuid_all hcanon)
      (Or.inl ⟨rfl, rfl⟩)
    simp only [urnGenerate, huuid, Option.some_bind]
    refine ⟨⟨_, _⟩, ?_, rfl, haux⟩
    rw [haux]
    rfl
  · have hm : matchVersion vs = true := hver vs rfl
    have hE : vs.isEmpty = false := by
      obtain ⟨t, rfl, _, _⟩ := matchVersion_shape vs hm
      rfl
    have haux := urnParse_assembled state domain obj_type localBytes u (some vs)
      (58 :: vs) nid
      hnid_all hnid_len hstate_all hstate_len hdom_all hdom_ne hobj_all hobj_ne
      hloc_ne hloc256 (isCanonicalUuid_length hcanon) (isCanonicalUuid_all hcanon)
      (Or.inr ⟨vs, rfl, hm, rfl⟩)
    simp only [urnGenerate, huuid, Option.some_bind, hE, Bool.false_eq_true,
      if_false]
    refine ⟨⟨_, _⟩, ?_, rfl, haux⟩
    rw [haux]
    rfl

/-- C1.  Round-trip: for every generation input whose normalized jurisdiction
matches [a-z]\x7b2,3\x7d, whose normalized category and record type match
[a-z0-9-]+, whose local reference is non-empty, whose uuid (the fresh uuid4
value, or the canonicalized supplied value) is canonical, and whose optional
version matches the version group, URN.generate of vcc_urn/urn.py succeeds,
and parsing the produced canonical string succeeds with component values
byte-identical to the components generate assembled: the normalized
jurisdiction, category and record type, the original local reference after
percent-decoding, and the uuid.  (The catalog qualifier of the claim is
vacuous here: vcc_urn/urn.py consults no catalog.) -/
theorem claim_c1_round_trip
    (state domain obj_type localBytes : Bytes) (uuidStr : Option Bytes)
    (fresh : Bytes) (version : Option Bytes) (nid u : Bytes)
    (hnid_all : nid.all isNidB = true)
    (hnid_len : 1 ≤ nid.length ∧ nid.length ≤ 32)
    (hstate_all : (normToken state).all isLowerB = true)
    (hstate_len : 2 ≤ (normToken state).length ∧ (normToken state).length ≤ 3)
    (hdom_all : (normToken domain).all isNidB = true)
    (hdom_ne : normToken domain ≠ [])
    (hobj_all : (normToken obj_type).all isNidB = true)
    (hobj_ne : normToken obj_type ≠ [])
    (hloc_ne : localBytes ≠ [])
    (hloc256 : ∀ b ∈ localBytes, b < 256)
    (huuid : pyGenUuid uuidStr fresh = some u)
    (hcanon : IsCanonicalUuid u)
    (hver : ∀ vs, version = some vs → matchVersion vs = true) :
    ∃ r : URNVal,
      urnGenerate state domain obj_type localBytes uuidStr fresh version nid = some r ∧
      r.components = ⟨nid, normToken state, normToken domain, normToken obj_type,
        localBytes, u, version⟩ ∧
      urnParse r.raw = some r.components :=
  urnGenerate_roundTrip state domain obj_type localBytes uuidStr fresh version nid u
    hnid_all hnid_len hstate_all hstate_len hdom_all hdom_ne hobj_all hobj_ne
    hloc_ne hloc256 huuid hcanon hver

/-- Witness for C1 at a concrete input: jurisdiction NRW (uppercase, gets
normalized), category BImSchG, record type anlage, a local reference with a
space and a slash (so percent escaping is exercised), a fresh uuid and a
version tag. -/
theorem claim_c1_round_trip_witness :
    ∃ r : URNVal,
      urnGenerate (asciiBytes "NRW") (asciiBytes "BImSchG") (asciiBytes "anlage")
        (asciiBytes "AZ 4711/0815-K1") none
        (asciiBytes "123e4567-e89b-12d3-a456-426614174000")
        (some (asciiBytes "v2")) (asciiBytes "de") = some r ∧
      r.components = ⟨asciiBytes "de", normToken (asciiBytes "NRW"),
        normToken (asciiBytes "BImSchG"), normToken (asciiBytes "anlage"),
        asciiBytes "AZ 4711/0815-K1",
        asciiBytes "123e4567-e89b-12d3-a456-426614174000",
        some (asciiBytes "v2")⟩ ∧
      urnParse r.raw = some r.components :=
  claim_c1_round_trip (asciiBytes "NRW") (asciiBytes "BImSchG") (asciiBytes "anlage")
    (asciiBytes "AZ 4711/0815-K1") none
    (asciiBytes "123e4567-e89b-12d3-a456-426614174000")
    (some (asciiBytes "v2")) (asciiBytes "de")
    (asciiBytes "123e4567-e89b-12d3-a456-426614174000")
    (by decide) (by decide) (by decide) (by decide) (by decide) (by decide)
    (by decide) (by decide) (by decide) (by decide) rfl
    ⟨asciiBytes "123e4567", asciiBytes "e89b", asciiBytes "12d3", asciiBytes "a456",
      asciiBytes "426614174000", by decide, by decide, by decide, by decide,
      by decide, by decide, by decide⟩
    (fun vs h => by cases h; decide)

/-! ### uuid.UUID on canonical and near-canonical inputs -/

theorem removeOccFuel_id (p0 : Nat) (pt : Bytes) (fuel : Nat) (s : Bytes)
    (h : ∀ c ∈ s, c ≠ p0) : removeOccFuel (p0 :: pt) fuel s = s := by
  induction fuel generalizing s with
  | zero => cases s <;> rfl
  | succ n ih =>
    cases s with
    | nil => rfl
    | cons c r =>
      have hc : c ≠ p0 := h c (List.mem_cons_self ..)
      have hpre : (p0 :: pt).isPrefixOf (c :: r) = false := by
        simp [List.isPrefixOf]
        intro he
        exact absurd he.symm hc
      rw [removeOccFuel]
      rw [if_neg (by simp [hpre])]
      rw [ih r fun x hx => h x (List.mem_cons_of_mem _ hx)]

theorem removeOcc_id (p0 : Nat) (pt : Bytes) (s : Bytes) (h : ∀ c ∈ s, c ≠ p0) :
    removeOcc (p0 :: pt) s = s := removeOccFuel_id p0 pt s.length s h

theorem dropWhile_id (p : Nat → Bool) (s : Bytes)
    (h : ∀ c, s.head? = some c → p c = false) : s.dropWhile p = s := by
  cases s with
  | nil => rfl
  | cons c r => simp [List.dropWhile, h c rfl]

theorem stripBraces_id (s : Bytes) (hh : ∀ c, s.head? = some c → isBraceB c = false)
    (hl : ∀ c, s.reverse.head? = some c → isBraceB c = false) :
    stripBraces s = s := by
  rw [stripBraces, dropWhile_id _ s hh, dropWhile_id _ s.reverse hl,
    List.reverse_reverse]

/-- Total value of a hex digit byte (meaningful on hex digits only). -/
def hexDigitVal (c : Nat) : Nat :=
  if c ≤ 57 then c - 48 else if c ≤ 70 then c - 55 else c - 87

/-- Accumulating hex value of a digit string. -/
def hexFold (acc : Nat) (d : Bytes) : Nat :=
  d.foldl (fun a c => 16 * a + hexDigitVal c) acc

theorem lowerHex_hexValB (c : Nat) (h : isLowerHexB c = true) :
    hexValB c = some (hexDigitVal c) := by
  simp only [isLowerHexB, isDigitB, Bool.or_eq_true, decide_eq_true_eq] at h
  simp only [hexValB, hexDigitVal]
  rcases h with h | h
  · rw [if_pos (by omega), if_pos (by omega)]
  · rw [if_neg (by omega), if_neg (by omega), if_pos (by omega),
      if_neg (by omega), if_neg (by omega)]

theorem lowerHex_not_95 (c : Nat) (h : isLowerHexB c = true) : c ≠ 95 := by
  simp only [isLowerHexB, isDigitB, Bool.or_eq_true, decide_eq_true_eq] at h
  omega

theorem hexRun_all_hex (d : Bytes) (acc : Nat) (h : d.all isLowerHexB = true) :
    hexRun acc d = some (hexFold acc d) := by
  induction d generalizing acc with
  | nil => rfl
  | cons c r ih =>
    simp only [List.all_cons, Bool.and_eq_true] at h
    have hval := lowerHex_hexValB c h.1
    have h95 : c ≠ 95 := lowerHex_not_95 c h.1
    rw [hexRun.eq_def]
    simp only [if_neg h95, hval, ih _ h.2]
    rfl

theorem hexDigitVal_lt (c : Nat) (h : isLowerHexB c = true) : hexDigitVal c < 16 := by
  simp only [isLowerHexB, isDigitB, Bool.or_eq_true, decide_eq_true_eq] at h
  simp only [hexDigitVal]
  split_ifs <;> omega

theorem hexFold_lt (d : Bytes) (acc : Nat) (h : d.all isLowerHexB = true) :
    hexFold acc d < (acc + 1) * 16 ^ d.length := by
  induction d generalizing acc with
  | nil => simp [hexFold]
  | cons c r ih =>
    simp only [List.all_cons, Bool.and_eq_true] at h
    have hd := hexDigitVal_lt c h.1
    have hrec := ih (16 * acc + hexDigitVal c) h.2
    simp only [hexFold, List.foldl_cons] at *
    have hstep : 16 * acc + hexDigitVal c + 1 ≤ 16 * (acc + 1) := by omega
    calc List.foldl (fun a c => 16 * a + hexDigitVal c) (16 * acc + hexDigitVal c) r
        < (16 * acc + hexDigitVal c + 1) * 16 ^ r.length := hrec
      _ ≤ (16 * (acc + 1)) * 16 ^ r.length := Nat.mul_le_mul_right _ hstep
      _ = (acc + 1) * 16 ^ (c :: r).length := by
          rw [List.length_cons]
          ring

theorem natToHexAux_length (k v : Nat) : (natToHexAux k v).length = k := by
  induction k generalizing v with
  | zero => rfl
  | succ n ih => simp [natToHexAux, ih]

theorem lowerHexDigit_isLowerHex (m : Nat) (h : m < 16) :
    isLowerHexB (lowerHexDigit m) = true := by
  simp only [lowerHexDigit, isLowerHexB, isDigitB, Bool.or_eq_true, decide_eq_true_eq]
  split_ifs <;> omega

theorem natToHexAux_all (k v : Nat) : (natToHexAux k v).all isLowerHexB = true := by
  induction k generalizing v with
  | zero => rfl
  | succ n ih =>
    simp only [natToHexAux, List.all_append, List.all_cons, List.all_nil,
      Bool.and_eq_true, and_true]
    exact ⟨ih _, lowerHexDigit_isLowerHex _ (Nat.mod_lt _ (by omega))⟩

theorem lowerHexDigit_hexDigitVal (c : Nat) (h : isLowerHexB c = true) :
    lowerHexDigit (hexDigitVal c) = c := by
  simp only [isLowerHexB, isDigitB, Bool.or_eq_true, decide_eq_true_eq] at h
  rcases h with h | h
  · have hv : hexDigitVal c = c - 48 := by
      simp only [hexDigitVal]
      rw [if_pos (by omega)]
    rw [hv]
    simp only [lowerHexDigit]
    rw [if_pos (by omega)]
    omega
  · have hv : hexDigitVal c = c - 87 := by
      simp only [hexDigitVal]
      rw [if_neg (by omega), if_neg (by omega)]
    rw [hv]
    simp only [lowerHexDigit]
    rw [if_neg (by omega)]
    omega

theorem hexFold_append_digit (acc : Nat) (d : Bytes) (c : Nat) :
    hexFold acc (d ++ [c]) = 16 * hexFold acc d + hexDigitVal c := by
  simp [hexFold, List.foldl_append]

/-- Rendering the value of a 32 lowercase hex digit string gives the string
back. -/
theorem natToHexAux_hexFold (d : Bytes) (h : d.all isLowerHexB = true) :
    natToHexAux d.length (hexFold 0 d) = d := by
  induction d using List.reverseRecOn with
  | nil => rfl
  | append_singleton d c ih =>
    simp only [List.all_append, List.all_cons, Bool.and_eq_true] at h
    obtain ⟨hd, hc, _⟩ := h
    have hcv : hexDigitVal c < 16 := hexDigitVal_lt c hc
    rw [List.length_append, List.length_cons]
    simp only [List.length_nil, Nat.zero_add]
    rw [natToHexAux, hexFold_append_digit]
    have hdiv : (16 * hexFold 0 d + hexDigitVal c) / 16 = hexFold 0 d := by omega
    have hmod : (16 * hexFold 0 d + hexDigitVal c) % 16 = hexDigitVal c := by omega
    rw [hdiv, hmod, ih hd, lowerHexDigit_hexDigitVal c hc]

theorem dropWhile_all_false (p : Nat → Bool) (s : Bytes)
    (h : ∀ c ∈ s, p c = false) : s.dropWhile p = s := by
  cases s with
  | nil => rfl
  | cons c r => simp [List.dropWhile, h c (List.mem_cons_self ..)]

theorem stripWs_all_hex (s : Bytes) (h : s.all isLowerHexB = true) :
    ((s.dropWhile isPyWsB).reverse.dropWhile isPyWsB).reverse = s := by
  have hmem : ∀ c ∈ s, isPyWsB c = false := by
    intro c hc
    have := List.all_eq_true.mp h c hc
    simp only [isLowerHexB, isDigitB, Bool.or_eq_true, decide_eq_true_eq] at this
    simp only [isPyWsB, decide_eq_false_iff_not]
    omega
  rw [dropWhile_all_false _ _ hmem,
    dropWhile_all_false _ _ (fun c hc => hmem c (List.mem_reverse.mp hc)),
    List.reverse_reverse]

theorem hexRunFirst_all_hex (d : Bytes) (hne : d ≠ []) (h : d.all isLowerHexB = true) :
    hexRunFirst d = some (hexFold 0 d) := by
  cases d with
  | nil => exact absurd rfl hne
  | cons c r =>
    simp only [List.all_cons, Bool.and_eq_true] at h
    simp only [hexRunFirst, lowerHex_hexValB c h.1, Option.some_bind]
    rw [hexRun_all_hex r _ h.2]
    simp [hexFold, List.foldl_cons]

theorem pyInt16_all_hex (d : Bytes) (hne : d ≠ []) (h : d.all isLowerHexB = true) :
    pyInt16 d = some (hexFold 0 d) := by
  have hstrip := stripWs_all_hex d h
  have hfirst := hexRunFirst_all_hex d hne h
  simp only [pyInt16, hstrip]
  match d, hne with
  | [c], _ =>
    simp only [List.all_cons, Bool.and_eq_true] at h
    have h43 : c ≠ 43 := by
      have := h.1
      simp only [isLowerHexB, isDigitB, Bool.or_eq_true, decide_eq_true_eq] at this
      omega
    show (if c = 43 then pyInt16Core [] else pyInt16Core [c]) = _
    rw [if_neg h43]
    simpa [pyInt16Core] using hfirst
  | c0 :: c1 :: r, _ =>
    simp only [List.all_cons, Bool.and_eq_true] at h
    have h0 : isLowerHexB c0 = true := h.1
    have h1 : isLowerHexB c1 = true := h.2.1
    have h43 : c0 ≠ 43 := by
      simp only [isLowerHexB, isDigitB, Bool.or_eq_true, decide_eq_true_eq] at h0
      omega
    have hpre : ¬(c0 = 48 ∧ (c1 = 120 ∨ c1 = 88)) := by
      rintro ⟨_, hx | hx⟩ <;>
        (subst hx
         simp only [isLowerHexB, isDigitB, Bool.or_eq_true, decide_eq_true_eq] at h1
         omega)
    show (if c0 = 43 then pyInt16Core (c1 :: r) else pyInt16Core (c0 :: c1 :: r)) = _
    rw [if_neg h43]
    simp only [pyInt16Core, if_neg hpre]
    exact hfirst

theorem stripBraces_all (s : Bytes) (h : ∀ c ∈ s, isBraceB c = false) :
    stripBraces s = s := by
  rw [stripBraces, dropWhile_all_false _ _ h,
    dropWhile_all_false _ _ (fun c hc => h c (List.mem_reverse.mp hc)),
    List.reverse_reverse]

theorem canonical_chars {s : Bytes} (h : IsCanonicalUuid s) :
    ∀ x ∈ s, isLowerHexB x = true ∨ x = 45 := by
  obtain ⟨a, b, c, d, e, rfl, _, _, _, _, _, hall⟩ := h
  simp only [List.all_append, Bool.and_eq_true] at hall
  obtain ⟨⟨⟨⟨ha2, hb2⟩, hc2⟩, hd2⟩, he2⟩ := hall
  intro x hx
  simp only [List.mem_append, List.mem_cons] at hx
  rcases hx with h | h | h | h | h | h | h | h | h
  all_goals first
    | exact Or.inr h
    | exact Or.inl (List.all_eq_true.mp (by assumption) x h)

/-- uuid.UUID leaves a canonical uuid string unchanged (str of the parsed
value gives the input back). -/
theorem pyUuidCanon_canonical (s : Bytes) (h : IsCanonicalUuid s) :
    pyUuidCanon s = some s := by
  have hchars := canonical_chars h
  obtain ⟨a, b, c, d, e, hs, ha, hb, hc, hd, he, hall⟩ := h
  have h117 : ∀ x ∈ s, x ≠ 117 := by
    intro x hx
    rcases hchars x hx with hl | rfl
    · simp only [isLowerHexB, isDigitB, Bool.or_eq_true, decide_eq_true_eq] at hl
      omega
    · omega
  have hbr : ∀ x ∈ s, isBraceB x = false := by
    intro x hx
    have : x ≠ 123 ∧ x ≠ 125 := by
      rcases hchars x hx with hl | rfl
      · simp only [isLowerHexB, isDigitB, Bool.or_eq_true, decide_eq_true_eq] at hl
        omega
      · omega
    simp only [isBraceB, Bool.or_eq_false_iff]
    constructor <;> simp [this.1, this.2]
  have hurn : removeOcc (asciiBytes "urn:") s = s := by
    have hlit : asciiBytes "urn:" = 117 :: [114, 110, 58] := by decide
    rw [hlit]
    exact removeOcc_id _ _ _ h117
  have huuidp : removeOcc (asciiBytes "uuid:") s = s := by
    have hlit : asciiBytes "uuid:" = 117 :: [117, 105, 100, 58] := by decide
    rw [hlit]
    exact removeOcc_id _ _ _ h117
  have hstrip : stripBraces s = s := stripBraces_all s hbr
  have hallX : (a ++ (b ++ (c ++ (d ++ e)))).all isLowerHexB = true := by
    simp only [List.all_append, Bool.and_eq_true] at hall ⊢
    tauto
  have hne45 : ∀ (l : Bytes), l.all isLowerHexB = true →
      l.filter (fun x => x != 45) = l := by
    intro l hl
    refine List.filter_eq_self.mpr fun x hx => ?_
    have := List.all_eq_true.mp hl x hx
    simp only [isLowerHexB, isDigitB, Bool.or_eq_true, decide_eq_true_eq] at this
    simp only [bne_iff_ne, ne_eq]
    omega
  have hfa : a.all isLowerHexB = true := by
    simp only [List.all_append, Bool.and_eq_true] at hall
    tauto
  have hfb : b.all isLowerHexB = true := by
    simp only [List.all_append, Bool.and_eq_true] at hall
    tauto
  have hfc : c.all isLowerHexB = true := by
    simp only [List.all_append, Bool.and_eq_true] at hall
    tauto
  have hfd : d.all isLowerHexB = true := by
    simp only [List.all_append, Bool.and_eq_true] at hall
    tauto
  have hfe : e.all isLowerHexB = true := by
    simp only [List.all_append, Bool.and_eq_true] at hall
    tauto
  have hfilter : s.filter (fun x => x != 45) = a ++ (b ++ (c ++ (d ++ e))) := by
    rw [hs]
    simp only [List.filter_append, List.filter_cons, bne_self_eq_false,
      Bool.false_eq_true, if_false]
    rw [hne45 a hfa, hne45 b hfb, hne45 c hfc, hne45 d hfd, hne45 e hfe]
  have hlenX : (a ++ (b ++ (c ++ (d ++ e)))).length = 32 := by
    simp [List.length_append, ha, hb, hc, hd, he]
  have hneX : a ++ (b ++ (c ++ (d ++ e))) ≠ [] := by
    intro hx
    rw [hx] at hlenX
    simp at hlenX
  have hbound : hexFold 0 (a ++ (b ++ (c ++ (d ++ e)))) < 2 ^ 128 := by
    have := hexFold_lt _ 0 hallX
    rw [hlenX] at this
    calc hexFold 0 (a ++ (b ++ (c ++ (d ++ e)))) < (0 + 1) * 16 ^ 32 := this
      _ = 2 ^ 128 := by norm_num
  have hins : insertDashes (a ++ (b ++ (c ++ (d ++ e)))) = s := by
    have hX8 : (a ++ (b ++ (c ++ (d ++ e)))).take 8 = a := List.take_left' ha
    have hXd8 : (a ++ (b ++ (c ++ (d ++ e)))).drop 8 = b ++ (c ++ (d ++ e)) :=
      List.drop_left' ha
    have hre12 : a ++ (b ++ (c ++ (d ++ e))) = (a ++ b) ++ (c ++ (d ++ e)) := by
      simp [List.append_assoc]
    have hre16 : a ++ (b ++ (c ++ (d ++ e))) = ((a ++ b) ++ c) ++ (d ++ e) := by
      simp [List.append_assoc]
    have hre20 : a ++ (b ++ (c ++ (d ++ e))) = (((a ++ b) ++ c) ++ d) ++ e := by
      simp [List.append_assoc]
    have hXd12 : (a ++ (b ++ (c ++ (d ++ e)))).drop 12 = c ++ (d ++ e) := by
      rw [hre12]
      exact List.drop_left' (by simp [ha, hb])
    have hXd16 : (a ++ (b ++ (c ++ (d ++ e)))).drop 16 = d ++ e := by
      rw [hre16]
      exact List.drop_left' (by simp [ha, hb, hc])
    have hXd20 : (a ++ (b ++ (c ++ (d ++ e)))).drop 20 = e := by
      rw [hre20]
      exact List.drop_left' (by simp [ha, hb, hc, hd])
    rw [insertDashes, hX8, hXd8, hXd12, hXd16, hXd20,
      List.take_left' hb, List.take_left' hc, List.take_left' hd, hs]
  simp only [pyUuidCanon, hurn, huuidp, hstrip, hfilter]
  rw [if_pos hlenX, pyInt16_all_hex _ hneX hallX, Option.some_bind, if_pos hbound]
  rw [natToHex32, show (32 : Nat) = (a ++ (b ++ (c ++ (d ++ e)))).length from hlenX.symm,
    natToHexAux_hexFold _ hallX, hins]

theorem insertDashes_canonical (hh : Bytes) (hlen : hh.length = 32)
    (hall : hh.all isLowerHexB = true) : IsCanonicalUuid (insertDashes hh) := by
  refine ⟨hh.take 8, (hh.drop 8).take 4, (hh.drop 12).take 4, (hh.drop 16).take 4,
    hh.drop 20, rfl, ?_, ?_, ?_, ?_, ?_, ?_⟩
  · rw [List.length_take, hlen]
    decide
  · rw [List.length_take, List.length_drop, hlen]
    decide
  · rw [List.length_take, List.length_drop, hlen]
    decide
  · rw [List.length_take, List.length_drop, hlen]
    decide
  · rw [List.length_drop, hlen]
  · refine List.all_eq_true.mpr fun x hx => ?_
    simp only [List.mem_append] at hx
    rcases hx with ((((hx | hx) | hx) | hx) | hx) <;>
      first
      | exact List.all_eq_true.mp hall x (List.mem_of_mem_take hx)
      | exact List.all_eq_true.mp hall x
          (List.mem_of_mem_drop (List.mem_of_mem_take hx))
      | exact List.all_eq_true.mp hall x (List.mem_of_mem_drop hx)

/-- Whatever uuid.UUID accepts, str() renders in canonical form. -/
theorem pyUuidCanon_some_canonical (s u : Bytes) (h : pyUuidCanon s = some u) :
    IsCanonicalUuid u := by
  simp only [pyUuidCanon] at h
  split at h
  · rename_i hlen
    cases hv : pyInt16 ((stripBraces
        (removeOcc (asciiBytes "uuid:") (removeOcc (asciiBytes "urn:") s))).filter
        (fun b => b != 45)) with
    | none => rw [hv] at h; cases h
    | some v =>
      rw [hv] at h
      simp only [Option.some_bind] at h
      split at h
      · rename_i hb
        injection h with h
        subst h
        have hlen32 : (natToHex32 v).length = 32 := by
          rw [natToHex32]
          exact natToHexAux_length 32 v
        exact insertDashes_canonical _ hlen32 (natToHexAux_all 32 v)
      · cases h
  · cases h

/-! ### C6: supplied-uuid validation -/

/-- Counterexample to C6 as stated: uuid.UUID accepts the uppercase form
(not a canonical uuid), so generate succeeds instead of failing InvalidUUID,
and the identifier carries the lowercased form, not the supplied string. -/
theorem claim_c6_counterexample :
    (urnGenerate (asciiBytes "nrw") (asciiBytes "bau") (asciiBytes "anlage")
        (asciiBytes "4711") (some (asciiBytes "123E4567-E89B-12D3-A456-426614174000"))
        (asciiBytes "99999999-9999-4999-8999-999999999999") none
        (asciiBytes "de")).map (fun r => r.components.uuid)
      = some (asciiBytes "123e4567-e89b-12d3-a456-426614174000") ∧
    asciiBytes "123E4567-E89B-12D3-A456-426614174000"
      ≠ asciiBytes "123e4567-e89b-12d3-a456-426614174000" := by
  constructor
  · decide
  · decide

/-- C6 (amended).  Generate with a supplied non-empty uuid string fails if
and only if the uuid.UUID constructor rejects it (after removing every
occurrence of urn: and uuid:, stripping braces and removing all hyphens, the
remainder is not a 32-character int(.., 16)-parseable hex string); a
canonically-formed supplied uuid is contained in the identifier unchanged,
while accepted non-canonical forms (uppercase hex, braces, missing or
misplaced hyphens) are canonicalized to the lowercase dashed form rather
than rejected.  Stated for inputs whose remaining fields pass the grammar. -/
theorem claim_c6_supplied_uuid
    (state domain obj_type localBytes : Bytes) (s fresh : Bytes)
    (version : Option Bytes) (nid : Bytes)
    (hs_ne : s ≠ [])
    (hnid_all : nid.all isNidB = true)
    (hnid_len : 1 ≤ nid.length ∧ nid.length ≤ 32)
    (hstate_all : (normToken state).all isLowerB = true)
    (hstate_len : 2 ≤ (normToken state).length ∧ (normToken state).length ≤ 3)
    (hdom_all : (normToken domain).all isNidB = true)
    (hdom_ne : normToken domain ≠ [])
    (hobj_all : (normToken obj_type).all isNidB = true)
    (hobj_ne : normToken obj_type ≠ [])
    (hloc_ne : localBytes ≠ [])
    (hloc256 : ∀ b ∈ localBytes, b < 256)
    (hver : ∀ vs, version = some vs → matchVersion vs = true) :
    (pyUuidCanon s = none →
      urnGenerate state domain obj_type localBytes (some s) fresh version nid = none) ∧
    (∀ u, pyUuidCanon s = some u →
      ∃ r, urnGenerate state domain obj_type localBytes (some s) fresh version nid
        = some r ∧ r.components.uuid = u) ∧
    (IsCanonicalUuid s →
      ∃ r, urnGenerate state domain obj_type localBytes (some s) fresh version nid
        = some r ∧ r.components.uuid = s) := by
  have hE : s.isEmpty = false := by
    cases s with
    | nil => exact absurd rfl hs_ne
    | cons a r => rfl
  have hok : ∀ u, pyUuidCanon s = some u →
      ∃ r, urnGenerate state domain obj_type localBytes (some s) fresh version nid
        = some r ∧ r.components.uuid = u := by
    intro u hu
    have hcanon := pyUuidCanon_some_canonical s u hu
    have hgen : pyGenUuid (some s) fresh = some u := by
      simp [pyGenUuid, hE, hu]
    obtain ⟨r, hr1, hr2, _⟩ := urnGenerate_roundTrip state domain obj_type localBytes
      (some s) fresh version nid u hnid_all hnid_len hstate_all hstate_len hdom_all
      hdom_ne hobj_all hobj_ne hloc_ne hloc256 hgen hcanon hver
    exact ⟨r, hr1, by rw [hr2]⟩
  refine ⟨?_, hok, ?_⟩
  · intro hnone
    simp [urnGenerate, pyGenUuid, hE, hnone]
  · intro hc
    exact hok s (pyUuidCanon_canonical s hc)

/-- Witness for the amended C6: a rejected garbage uuid, an accepted braced
undashed uppercase form, and an accepted canonical form, all at concrete
inputs. -/
theorem claim_c6_supplied_uuid_witness :
    (pyUuidCanon (asciiBytes "not-a-uuid") = none →
      urnGenerate (asciiBytes "by") (asciiBytes "bau") (asciiBytes "bescheid")
        (asciiBytes "99") (some (asciiBytes "not-a-uuid"))
        (asciiBytes "99999999-9999-4999-8999-999999999999") none (asciiBytes "de")
        = none) ∧
    (∀ u, pyUuidCanon (asciiBytes "not-a-uuid") = some u →
      ∃ r, urnGenerate (asciiBytes "by") (asciiBytes "bau") (asciiBytes "bescheid")
        (asciiBytes "99") (some (asciiBytes "not-a-uuid"))
        (asciiBytes "99999999-9999-4999-8999-999999999999") none (asciiBytes "de")
        = some r ∧ r.components.uuid = u) ∧
    (IsCanonicalUuid (asciiBytes "not-a-uuid") →
      ∃ r, urnGenerate (asciiBytes "by") (asciiBytes "bau") (asciiBytes "bescheid")
        (asciiBytes "99") (some (asciiBytes "not-a-uuid"))
        (asciiBytes "99999999-9999-4999-8999-999999999999") none (asciiBytes "de")
        = some r ∧ r.components.uuid = asciiBytes "not-a-uuid") :=
  claim_c6_supplied_uuid (asciiBytes "by") (asciiBytes "bau") (asciiBytes "bescheid")
    (asciiBytes "99") (asciiBytes "not-a-uuid")
    (asciiBytes "99999999-9999-4999-8999-999999999999") none (asciiBytes "de")
    (by decide) (by decide) (by decide) (by decide) (by decide) (by decide)
    (by decide) (by decide) (by decide) (by decide) (by decide)
    (fun vs h => by cases h)

/-! ### Catalogs: vcc_urn/core/runtime.py and vcc_urn/services/urn.py

The runtime module recomputes the effective catalogs from the current
settings on every call; there is no stored snapshot.  reload_settings
re-imports the configuration modules and returns the new effective view, so
it is modelled as a pure function of the new settings. -/

/-- A parsed JSON value (the result of json.loads); an obj represents a
Python dict, whose keys are unique after loading. -/
inductive PyJson where
  | null
  | bool (b : Bool)
  | num (n : Int)
  | str (s : Bytes)
  | arr (xs : List PyJson)
  | obj (kvs : List (Bytes × PyJson))

mutual

/-- repr() of a JSON value, used by str() on containers.  The escaping of
quotes and backslashes inside nested string literals is abstracted (it is
irrelevant to every use: these bytes only ever feed catalog membership
tests for values that are not plain strings). -/
def pyReprOfJson : PyJson → Bytes
  | .null => [78, 111, 110, 101]
  | .bool true => [84, 114, 117, 101]
  | .bool false => [70, 97, 108, 115, 101]
  | .num n => (toString n).data.map Char.toNat
  | .str s => 39 :: s ++ [39]
  | .arr xs => 91 :: pyReprList xs ++ [93]
  | .obj kvs => 123 :: pyReprObj kvs ++ [125]

def pyReprList : List PyJson → Bytes
  | [] => []
  | [x] => pyReprOfJson x
  | x :: rest => pyReprOfJson x ++ [44, 32] ++ pyReprList rest

def pyReprObj : List (Bytes × PyJson) → Bytes
  | [] => []
  | [(k, v)] => 39 :: k ++ [39, 58, 32] ++ pyReprOfJson v
  | (k, v) :: rest => 39 :: k ++ [39, 58, 32] ++ pyReprOfJson v ++ [44, 32] ++ pyReprObj rest

end

/-- str() of a JSON value. -/
def pyStrOfJson : PyJson → Bytes
  | .str s => s
  | j => pyReprOfJson j

/-- The raw text of the URN_CATALOGS_JSON setting: empty (falsy), text that
json.loads rejects, or text parsing to a JSON value. -/
inductive ConfigText where
  | empty
  | malformed
  | json (j : PyJson)

/-- dict.get on a parsed JSON object. -/
def jsonDictGet (kvs : List (Bytes × PyJson)) (k : Bytes) : Option PyJson :=
  (kvs.find? (fun kv => kv.1 == k)).map (·.2)

/-- Python dict assignment: an existing key keeps its position and gets the
new value, a new key is appended. -/
def assocUpsert {α : Type} (m : List (Bytes × α)) (k : Bytes) (v : α) : List (Bytes × α) :=
  if m.any (fun kv => kv.1 == k) then
    m.map (fun kv => if kv.1 == k then (k, v) else kv)
  else m ++ [(k, v)]

/-- dict lookup (first match; keys are unique by construction). -/
def assocGet {α : Type} (m : List (Bytes × α)) (k : Bytes) : Option α :=
  (m.find? (fun kv => kv.1 == k)).map (·.2)

/-- Per-state catalog entry as normalized by _parse_state_catalogs: a
missing or non-list dimension becomes the empty list. -/
structure StateCfg where
  domains : List Bytes
  obj_types : List Bytes
deriving DecidableEq, Repr

/-- `[str(x).strip().lower() for x in dom] if isinstance(dom, list) else []`. -/
def normCatList (x : Option PyJson) : List Bytes :=
  match x with
  | some (.arr xs) => xs.map (fun e => pyLower (pyStrip (pyStrOfJson e)))
  | _ => []

/-- _parse_state_catalogs of vcc_urn/core/runtime.py: empty or malformed or
non-dict configuration text yields the empty mapping (the except clause
swallows the json.loads error and returns an empty dict); otherwise every
state whose entry is a dict is normalized, keys lowercased. -/
def parse_state_catalogs (cfg : ConfigText) : List (Bytes × StateCfg) :=
  match cfg with
  | .empty => []
  | .malformed => []
  | .json (.obj kvs) =>
    kvs.foldl (fun out kv =>
      match kv.2 with
      | .obj c => assocUpsert out (pyLower kv.1)
          ⟨normCatList (jsonDictGet c (asciiBytes "domains")),
           normCatList (jsonDictGet c (asciiBytes "obj_types"))⟩
      | _ => out) []
  | .json _ => []

/-- The settings consumed by the catalog and federation code
(vcc_urn/core/config.py).  state_pattern is the compiled regular expression
URN_STATE_RE viewed as a predicate; none models the empty (falsy) setting. -/
structure PySettings where
  nid : Bytes
  state_pattern : Option (Bytes → Bool)
  allowed_domains : Bytes
  allowed_obj_types : Bytes
  catalogs_json : ConfigText
  peers : Bytes
  fed_cache_ttl : Nat

/-- The compiled default URN_STATE_RE pattern of the sources
(two or three lowercase letters, anchored). -/
def defaultStatePattern : Option (Bytes → Bool) :=
  some fun s => decide (2 ≤ s.length ∧ s.length ≤ 3) && s.all isLowerB

/-- _parse_global_lists: split the comma string, drop blank entries, strip
and lowercase the rest. -/
def parseGlobalList (s : Bytes) : List Bytes :=
  (List.splitOn 44 s).filterMap fun d =>
    let t := pyStrip d
    if t.isEmpty then none else some (pyLower t)

/-- The effective view returned by effective_catalogs. -/
structure Catalogs where
  global_domains : List Bytes
  global_obj_types : List Bytes
  state_catalogs : List (Bytes × StateCfg)
deriving DecidableEq, Repr

/-- effective_catalogs of vcc_urn/core/runtime.py. -/
def effective_catalogs (st : PySettings) : Catalogs :=
  ⟨parseGlobalList st.allowed_domains, parseGlobalList st.allowed_obj_types,
   parse_state_catalogs st.catalogs_json⟩

/-- reload_settings of vcc_urn/core/runtime.py: re-import the configuration
modules and return the new effective view.  Nothing of the previous view is
retained anywhere; every later call recomputes from the current settings. -/
def reload_settings (newSettings : PySettings) : Catalogs :=
  effective_catalogs newSettings

/-- The effective (domains, obj_types) pair computed identically in _parse
and generate of vcc_urn/services/urn.py: for a state present in the runtime
catalogs the normalized lists (possibly empty) replace the global lists
entirely; otherwise a non-empty global list applies; an empty global list
leaves the dimension unconstrained.  (The isinstance list checks in the
source always succeed on the runtime output, which maps every present state
to a pair of lists.) -/
def effPair (cats : Catalogs) (state_l : Bytes) : Option (List Bytes) × Option (List Bytes) :=
  match assocGet cats.state_catalogs state_l with
  | some cfg => (some cfg.domains, some cfg.obj_types)
  | none =>
    ((if cats.global_domains.isEmpty then none else some cats.global_domains),
     (if cats.global_obj_types.isEmpty then none else some cats.global_obj_types))

/-- The distinguishable ValueError kinds raised by the services URN class. -/
inductive URNError where
  | malformed
  | nidMismatch
  | statePatternMismatch
  | domainNotAllowed
  | objTypeNotAllowed
  | invalidUUID
deriving DecidableEq, Repr

/-- Result of an operation that may raise a ValueError. -/
inductive SvcResult (α : Type) where
  | error (e : URNError)
  | ok (v : α)
deriving DecidableEq

/-- URN._parse of vcc_urn/services/urn.py: regex match, nid check, state
pattern check, then the catalog membership checks against the effective
pair for the lowercased state. -/
def svcParse (st : PySettings) (raw : Bytes) : SvcResult URNComponents :=
  match urnMatch raw with
  | none => .error .malformed
  | some g =>
    if ¬ st.nid.isEmpty ∧ g.nid ≠ st.nid then .error .nidMismatch
    else if (match st.state_pattern with
             | some p => !(p g.state)
             | none => false) then .error .statePatternMismatch
    else
      let cats := effective_catalogs st
      let pair := effPair cats (pyLower g.state)
      if (match pair.1 with
          | some ds => !(ds.contains (pyLower g.domain))
          | none => false) then .error .domainNotAllowed
      else if (match pair.2 with
               | some ts => !(ts.contains (pyLower g.obj_type))
               | none => false) then .error .objTypeNotAllowed
      else .ok ⟨g.nid, g.state, g.domain, g.obj_type, pyUnquote g.localRaw,
        g.uuid, g.version⟩

/-- URN.generate of vcc_urn/services/urn.py: normalize, resolve the
effective nid, check the effective catalogs for the normalized state, take
the supplied uuid through uuid.UUID (InvalidUUID on rejection), assemble the
string and parse it with the same class. -/
def svcGenerate (st : PySettings) (state domain obj_type localBytes : Bytes)
    (uuidStr : Option Bytes) (fresh : Bytes) (version : Option Bytes)
    (nid : Option Bytes) : SvcResult URNVal :=
  let state_n := normToken state
  let domain_n := normToken domain
  let obj_type_n := normToken obj_type
  let local_enc := pyQuote localBytes
  let nid_base := match nid with
    | some n => if n.isEmpty then (if st.nid.isEmpty then asciiBytes "de" else st.nid) else n
    | none => if st.nid.isEmpty then asciiBytes "de" else st.nid
  let nid_eff := normToken nid_base
  let cats := effective_catalogs st
  let pair := effPair cats state_n
  if (match pair.1 with
      | some ds => !(ds.contains domain_n)
      | none => false) then .error .domainNotAllowed
  else if (match pair.2 with
           | some ts => !(ts.contains obj_type_n)
           | none => false) then .error .objTypeNotAllowed
  else
    match pyGenUuid uuidStr fresh with
    | none => .error .invalidUUID
    | some u =>
      let urn_str := [117, 114, 110, 58] ++ nid_eff ++ 58 :: (state_n ++ 58 ::
        (domain_n ++ 58 :: (obj_type_n ++ 58 :: (local_enc ++ 58 :: (u ++
          (match version with | some v => if v.isEmpty then [] else 58 :: v | none => []))))))
      match svcParse st urn_str with
      | .error e => .error e
      | .ok comps => .ok ⟨urn_str, comps⟩

def SvcResult.isOk {α : Type} : SvcResult α → Bool
  | .ok _ => true
  | .error _ => false

/-! ### C2 and C3: catalog precedence and reload behavior -/

/-- A fixed canonical uuid standing for a uuid4() output in the concrete
scenarios below. -/
def frUuid : Bytes := asciiBytes "123e4567-e89b-12d3-a456-426614174000"

/-- The scenario configuration of C2: global categories bau (and record
types anlage), jurisdiction nrw overriding categories to bimschg (and record
types to anlage). -/
def cfg_c2 : PySettings :=
  { nid := asciiBytes "de", state_pattern := defaultStatePattern,
    allowed_domains := asciiBytes "bau", allowed_obj_types := asciiBytes "anlage",
    catalogs_json := .json (.obj [(asciiBytes "nrw",
      .obj [(asciiBytes "domains", .arr [.str (asciiBytes "bimschg")]),
            (asciiBytes "obj_types", .arr [.str (asciiBytes "anlage")])])]),
    peers := [], fed_cache_ttl := 300 }

/-- A configuration whose nrw entry provides a record type override but no
category list: per the claim no category override exists for nrw, so the
global categories should apply. -/
def cfg_c2x : PySettings :=
  { nid := asciiBytes "de", state_pattern := defaultStatePattern,
    allowed_domains := asciiBytes "bau", allowed_obj_types := asciiBytes "anlage",
    catalogs_json := .json (.obj [(asciiBytes "nrw",
      .obj [(asciiBytes "obj_types", .arr [.str (asciiBytes "anlage")])])]),
    peers := [], fed_cache_ttl := 300 }

/-- The effective category allow-list as claim C2 words it, read off the
configuration: the jurisdiction entry of the overrides JSON provides an
override for the category dimension only when it contains a list under the
domains key; otherwise the non-empty global list applies, else the
dimension is unconstrained. -/
def claimEffDomains (st : PySettings) (state_l : Bytes) : Option (List Bytes) :=
  let g := parseGlobalList st.allowed_domains
  let globalF := if g.isEmpty then none else some g
  match st.catalogs_json with
  | .json (.obj kvs) =>
    match kvs.find? (fun kv => pyLower kv.1 == state_l) with
    | some entry =>
      match entry.2 with
      | .obj c =>
        match jsonDictGet c (asciiBytes "domains") with
        | some (.arr ds) => some (ds.map (fun e => pyLower (pyStrip (pyStrOfJson e))))
        | _ => globalF
      | _ => globalF
    | none => globalF
  | _ => globalF

/-- Counterexample to C2 as stated: under cfg_c2x no category override
exists for nrw in the configuration (its entry has no domains list), so by
the claim the global list (containing bau) is the effective allow-list and
generating nrw/bau should succeed; the code normalizes the missing
dimension to the empty override list and rejects bau with
CategoryNotAllowed. -/
theorem claim_c2_counterexample :
    claimEffDomains cfg_c2x (asciiBytes "nrw") = some [asciiBytes "bau"] ∧
    svcGenerate cfg_c2x (asciiBytes "nrw") (asciiBytes "bau") (asciiBytes "anlage")
      (asciiBytes "1") none frUuid none none = .error .domainNotAllowed := by
  constructor
  · decide
  · decide

/-- C2 (amended).  Catalog precedence as implemented: a jurisdiction present
in the overrides JSON has both dimensions replaced by the normalized entry
lists, a missing or non-list dimension becoming the empty list, which then
blocks every value for that dimension; only jurisdictions absent from the
parsed overrides fall back to the global list of a dimension, a non-empty
global list constrains and an empty one leaves the dimension unconstrained.
The scenario outcomes of the claim hold: with global categories bau and nrw
overriding categories to bimschg, generating nrw/bau fails CategoryNotAllowed,
generating nrw/bimschg succeeds, and generating hh/bau succeeds. -/
theorem claim_c2_catalog_precedence :
    (∀ (st : PySettings) (sl : Bytes) (cfg : StateCfg),
      assocGet (effective_catalogs st).state_catalogs sl = some cfg →
      effPair (effective_catalogs st) sl = (some cfg.domains, some cfg.obj_types)) ∧
    (∀ (st : PySettings) (sl : Bytes),
      assocGet (effective_catalogs st).state_catalogs sl = none →
      effPair (effective_catalogs st) sl =
        ((if (parseGlobalList st.allowed_domains).isEmpty then none
          else some (parseGlobalList st.allowed_domains)),
         (if (parseGlobalList st.allowed_obj_types).isEmpty then none
          else some (parseGlobalList st.allowed_obj_types)))) ∧
    svcGenerate cfg_c2 (asciiBytes "nrw") (asciiBytes "bau") (asciiBytes "anlage")
      (asciiBytes "1") none frUuid none none = .error .domainNotAllowed ∧
    (svcGenerate cfg_c2 (asciiBytes "nrw") (asciiBytes "bimschg") (asciiBytes "anlage")
      (asciiBytes "4711") none frUuid none none).isOk = true ∧
    (svcGenerate cfg_c2 (asciiBytes "hh") (asciiBytes "bau") (asciiBytes "anlage")
      (asciiBytes "x") none frUuid none none).isOk = true ∧
    svcGenerate cfg_c2x (asciiBytes "nrw") (asciiBytes "bau") (asciiBytes "anlage")
      (asciiBytes "1") none frUuid none none = .error .domainNotAllowed := by
  refine ⟨?_, ?_, by decide, by decide, by decide, by decide⟩
  · intro st sl cfg h
    simp [effPair, h]
  · intro st sl h
    simp only [effective_catalogs] at h
    simp [effPair, h, effective_catalogs]

/-- Witness for the amended C2: the precedence conjuncts applied at the
concrete scenario configuration. -/
theorem claim_c2_catalog_precedence_witness :
    effPair (effective_catalogs cfg_c2) (asciiBytes "nrw")
      = (some [asciiBytes "bimschg"], some [asciiBytes "anlage"]) ∧
    effPair (effective_catalogs cfg_c2) (asciiBytes "hh")
      = (some [asciiBytes "bau"], some [asciiBytes "anlage"]) := by
  have h1 := claim_c2_catalog_precedence.1 cfg_c2 (asciiBytes "nrw")
    ⟨[asciiBytes "bimschg"], [asciiBytes "anlage"]⟩ (by decide)
  have h2 := claim_c2_catalog_precedence.2.1 cfg_c2 (asciiBytes "hh") (by decide)
  constructor
  · exact h1
  · rw [h2]
    decide

/-- The C2 configuration after an administrator supplies malformed
overrides JSON (the reload scenario of C3). -/
def cfg_c3_bad : PySettings :=
  { nid := asciiBytes "de", state_pattern := defaultStatePattern,
    allowed_domains := asciiBytes "bau", allowed_obj_types := asciiBytes "anlage",
    catalogs_json := .malformed,
    peers := [], fed_cache_ttl := 300 }

/-- Counterexample to C3 as stated: after a reload with malformed overrides
JSON the previously active overrides are gone (the state catalog map is
empty, not the prior one), the administrative caller receives the new empty
view instead of an error (the parser returns an empty dict from its except
clause), and a mint the prior catalog rejected now succeeds. -/
theorem claim_c3_counterexample :
    (effective_catalogs cfg_c3_bad).state_catalogs = [] ∧
    (effective_catalogs cfg_c2).state_catalogs
      = [(asciiBytes "nrw", ⟨[asciiBytes "bimschg"], [asciiBytes "anlage"]⟩)] ∧
    reload_settings cfg_c3_bad = effective_catalogs cfg_c3_bad ∧
    svcGenerate cfg_c2 (asciiBytes "nrw") (asciiBytes "bau") (asciiBytes "anlage")
      (asciiBytes "1") none frUuid none none = .error .domainNotAllowed ∧
    (svcGenerate cfg_c3_bad (asciiBytes "nrw") (asciiBytes "bau") (asciiBytes "anlage")
      (asciiBytes "1") none frUuid none none).isOk = true := by
  refine ⟨by decide, by decide, rfl, by decide, by decide⟩

/-- C3 (amended).  A reload whose overrides JSON is malformed silently
yields an empty override map: the effective view falls back to the global
lists only, every trace of the previously active overrides is lost (the
runtime recomputes from the current settings on each call and stores no
snapshot), and no parse error is surfaced to the administrative caller (the
parser returns an empty mapping instead of raising). -/
theorem claim_c3_reload_malformed :
    ∀ st : PySettings, st.catalogs_json = .malformed →
      parse_state_catalogs st.catalogs_json = [] ∧
      effective_catalogs st = ⟨parseGlobalList st.allowed_domains,
        parseGlobalList st.allowed_obj_types, []⟩ ∧
      reload_settings st = effective_catalogs st := by
  intro st h
  refine ⟨?_, ?_, rfl⟩
  · rw [h]
    rfl
  · simp only [effective_catalogs, h]
    rfl

/-- Witness for the amended C3 at the concrete malformed configuration. -/
theorem claim_c3_reload_malformed_witness :
    parse_state_catalogs cfg_c3_bad.catalogs_json = [] ∧
    effective_catalogs cfg_c3_bad = ⟨parseGlobalList cfg_c3_bad.allowed_domains,
      parseGlobalList cfg_c3_bad.allowed_obj_types, []⟩ ∧
    reload_settings cfg_c3_bad = effective_catalogs cfg_c3_bad :=
  claim_c3_reload_malformed cfg_c3_bad rfl

/-! ### Federation: vcc_urn/services/federation.py

The resolver is modelled as a sequential transition system.  The network is
an oracle giving the outcome of each attempt; pybreaker (CircuitBreaker
fail_max=5, reset_timeout=60) and tenacity (stop_after_attempt(3), retrying
only transport exceptions, reraise) are modelled from their documented
semantics.  The cache consulted by resolve_via_peer is the RedisCache of
vcc_urn/core/redis_cache.py; with Redis unavailable every get and set goes
to its plain in-memory dict, whose set ignores the ttl argument (the source
comments: no TTL support in memory fallback). -/

/-- A JSON object manifest (a Python dict). -/
abbrev Manifest := List (Bytes × PyJson)

/-- Outcome the network offers to one HTTP attempt: a transport exception
(timeout or connection error, the retried kinds) or a response with a
status and a body (none models a body that resp.json() rejects). -/
inductive NetResult where
  | transportError
  | resp (status : Nat) (body : Option PyJson)

/-- Outcome of _fetch_from_peer as seen by the circuit breaker: a returned
manifest, a returned None, or a raised exception. -/
inductive FetchOutcome where
  | ok (m : Manifest)
  | noData
  | exn

def FetchOutcome.isExn : FetchOutcome → Bool
  | .exn => true
  | _ => false

/-- Python == between an optional JSON value and a str: true only for an
equal string. -/
def jsonEqStr (x : Option PyJson) (s : Bytes) : Bool :=
  match x with
  | some (.str t) => t == s
  | _ => false

/-- The response handling inside _fetch_from_peer: only a 200 response has
its body read; a dict body whose urn field equals the requested identifier
is returned, anything else yields None; an unreadable body raises. -/
def evalResp (urn : Bytes) (status : Nat) (body : Option PyJson) : FetchOutcome :=
  if status = 200 then
    match body with
    | some (.obj kvs) =>
      if jsonEqStr (jsonDictGet kvs (asciiBytes "urn")) urn then .ok kvs else .noData
    | some _ => .noData
    | none => .exn
  else .noData

/-- _fetch_from_peer under the tenacity policy: up to three attempts, only
transport errors are retried, the third transport error is reraised;
non-transport outcomes pass through unretried. -/
def fetchFromPeer (urn : Bytes) (oracle : Nat → NetResult) : FetchOutcome :=
  match oracle 0 with
  | .resp s b => evalResp urn s b
  | .transportError =>
    match oracle 1 with
    | .resp s b => evalResp urn s b
    | .transportError =>
      match oracle 2 with
      | .resp s b => evalResp urn s b
      | .transportError => .exn

/-- pybreaker state: closed with a consecutive-failure count, open since an
instant, or half-open (the trial state passed through transiently). -/
inductive BreakerState where
  | closed (failCount : Nat)
  | opened (openedAt : Nat)
  | halfOpen
deriving DecidableEq, Repr

/-- Whether a call is let through: closed and half-open always; open only
once the 60 second cooldown has elapsed (the call then runs as the
half-open trial). -/
def breakerAllows (b : BreakerState) (now : Nat) : Bool :=
  match b with
  | .opened t => decide (t + 60 ≤ now)
  | _ => true

/-- State after an attempted call: success resets a closed counter and
closes the breaker from a trial; the fifth consecutive failure opens it,
and a failed trial re-opens it, restarting the cooldown at the current
instant (fail_max=5). -/
def breakerAfter (b : BreakerState) (now : Nat) (success : Bool) : BreakerState :=
  match b, success with
  | .closed _, true => .closed 0
  | .closed n, false => if n + 1 ≥ 5 then .opened now else .closed (n + 1)
  | .opened _, true => .closed 0
  | .opened _, false => .opened now
  | .halfOpen, true => .closed 0
  | .halfOpen, false => .opened now

/-- RedisCache with Redis unavailable: get reads the plain dict. -/
def redisFallbackGet (mem : List (Bytes × Manifest)) (k : Bytes) : Option Manifest :=
  assocGet mem k

/-- RedisCache with Redis unavailable: set stores in the plain dict; the
ttl argument is ignored (no TTL support in the memory fallback). -/
def redisFallbackSet (mem : List (Bytes × Manifest)) (k : Bytes) (v : Manifest)
    (_ttl : Nat) : List (Bytes × Manifest) :=
  assocUpsert mem k v

/-- `manifest = cache.get(urn); if manifest:` - a missing key and a falsy
(empty dict) value both mean a miss. -/
def truthyGet (mem : List (Bytes × Manifest)) (k : Bytes) : Option Manifest :=
  match redisFallbackGet mem k with
  | some m => if m.isEmpty then none else some m
  | none => none

/-- _parse_peers: comma separated state=baseURL items; blank or equals-free
items are skipped, keys are stripped and lowercased, values stripped and
stripped of trailing slashes, later duplicates overwrite. -/
def parsePeers (s : Bytes) : List (Bytes × Bytes) :=
  (List.splitOn 44 s).foldl (fun mp item =>
    let it := pyStrip item
    if it.isEmpty then mp
    else if !(it.contains 61) then mp
    else
      let stPart := it.takeWhile (fun b => !(b == 61))
      let basePart := (it.dropWhile (fun b => !(b == 61))).drop 1
      assocUpsert mp (pyLower (pyStrip stPart))
        ((pyStrip basePart).reverse.dropWhile (fun b => b == 47)).reverse) []

/-- The process-wide mutable state touched by one resolution: the fallback
cache dict and the shared circuit breaker. -/
structure FedState where
  cache : List (Bytes × Manifest)
  breaker : BreakerState

/-- Result of one resolve_via_peer call: the returned value, the new shared
state, whether any network attempt was made, and the cache set invocations
with the ttl argument passed. -/
structure ResolveResult where
  result : Option Manifest
  state : FedState
  networkAttempted : Bool
  setCalls : List (Bytes × Manifest × Nat)

/-- `base = peers.get(state); if not base:` - a missing key and an empty
base URL are both falsy: no usable peer. -/
def truthyPeerGet (peers : List (Bytes × Bytes)) (k : Bytes) : Option Bytes :=
  match assocGet peers k with
  | some b => if b.isEmpty then none else some b
  | none => none

/-- resolve_via_peer of vcc_urn/services/federation.py: cache first, then
peer lookup (`if not base:` returns None for a missing or empty entry),
then the breaker-guarded fetch; any exception out of the breaker call
(CircuitBreakerError or the reraised transport error) is caught and the
function returns None. -/
def resolveViaPeer (st : PySettings) (fs : FedState) (now : Nat)
    (urn stateArg : Bytes) (oracle : Nat → NetResult) : ResolveResult :=
  match truthyGet fs.cache urn with
  | some m => ⟨some m, fs, false, []⟩
  | none =>
    match truthyPeerGet (parsePeers st.peers) (pyLower stateArg) with
    | none => ⟨none, fs, false, []⟩
    | some _base =>
      if breakerAllows fs.breaker now then
        match fetchFromPeer urn oracle with
        | .ok m =>
          ⟨some m, ⟨redisFallbackSet fs.cache urn m st.fed_cache_ttl,
            breakerAfter fs.breaker now true⟩, true, [(urn, m, st.fed_cache_ttl)]⟩
        | .noData => ⟨none, ⟨fs.cache, breakerAfter fs.breaker now true⟩, true, []⟩
        | .exn => ⟨none, ⟨fs.cache, breakerAfter fs.breaker now false⟩, true, []⟩
      else ⟨none, fs, false, []⟩

/-- The jurisdiction extracted from an identifier inside resolve_batch:
parts[2] of the colon split when there are at least three parts. -/
def stateOfUrn (urn : Bytes) : Option Bytes :=
  match List.splitOn 58 urn with
  | _ :: _ :: s :: _ => some (pyLower s)
  | _ => none

/-- Grouping dict by_state: append the identifier to its state group,
creating the group at the end on first sight. -/
def groupUpsert (gs : List (Bytes × List Bytes)) (k : Bytes) (u : Bytes) :
    List (Bytes × List Bytes) :=
  if gs.any (fun kv => kv.1 == k) then
    gs.map (fun kv => if kv.1 == k then (kv.1, kv.2 ++ [u]) else kv)
  else gs ++ [(k, [u])]

/-- The accumulator threaded through the batch loops: the results dict, the
shared state, and the identifiers for which resolve_via_peer attempted the
network. -/
structure BatchAcc where
  results : List (Bytes × Option Manifest)
  fed : FedState
  attempted : List Bytes

/-- The inner loop of resolve_batch for one state group with a configured
peer: each identifier goes through the single-resolve path, threading the
shared cache and breaker. -/
def processUrns (st : PySettings) (now : Nat) (oracle : Bytes → Nat → NetResult)
    (state : Bytes) : List Bytes → BatchAcc → BatchAcc
  | [], acc => acc
  | u :: rest, acc =>
    let r := resolveViaPeer st acc.fed now u state (oracle u)
    processUrns st now oracle state rest
      ⟨assocUpsert acc.results u r.result, r.state,
       acc.attempted ++ (if r.networkAttempted then [u] else [])⟩

/-- The outer loop of resolve_batch over the state groups: a state whose
peer entry is missing or empty (`if not base:`) has all its identifiers
marked not-found without any call. -/
def processGroups (st : PySettings) (now : Nat) (oracle : Bytes → Nat → NetResult) :
    List (Bytes × List Bytes) → BatchAcc → BatchAcc
  | [], acc => acc
  | (state, gurns) :: rest, acc =>
    match truthyPeerGet (parsePeers st.peers) state with
    | none => processGroups st now oracle rest
        ⟨gurns.foldl (fun r u => assocUpsert r u none) acc.results, acc.fed, acc.attempted⟩
    | some _ => processGroups st now oracle rest (processUrns st now oracle state gurns acc)

/-- One step of the cache phase of resolve_batch: a truthy cached value is
entered into the results dict, a miss leaves the dict untouched. -/
def cacheStep (fs : FedState) (acc : List (Bytes × Option Manifest)) (urn : Bytes) :
    List (Bytes × Option Manifest) :=
  match truthyGet fs.cache urn with
  | some m => assocUpsert acc urn (some m)
  | none => acc

/-- One step of the grouping loop of resolve_batch: an identifier with at
least three colon-separated parts joins the group of its jurisdiction, any
other identifier is skipped. -/
def groupStep (gs : List (Bytes × List Bytes)) (u : Bytes) :
    List (Bytes × List Bytes) :=
  match stateOfUrn u with
  | some state => groupUpsert gs state u
  | none => gs

/-- resolve_batch of vcc_urn/services/federation.py: answer what the cache
satisfies, group the rest by the jurisdiction read from the identifier
(identifiers with fewer than three colon-separated parts are silently
skipped: the guard is an if, and the except branch below it is
unreachable), then process the groups. -/
def resolveBatch (st : PySettings) (fs : FedState) (now : Nat) (urns : List Bytes)
    (oracle : Bytes → Nat → NetResult) : BatchAcc :=
  let results0 := urns.foldl (cacheStep fs) []
  let uncached := urns.filter (fun u => !(results0.any (fun kv => kv.1 == u)))
  let groups := uncached.foldl groupStep []
  processGroups st now oracle groups ⟨results0, fs, []⟩

/-! ### The service-level resolver (vcc_urn/services/urn_service.py) -/

/-- Outcome of a Python call that the service wraps in try/except. -/
inductive PyCall (α : Type) where
  | raises
  | returns (v : α)

/-- The minimal manifest URNService.resolve synthesizes from the components
of the identifier itself. -/
def synthManifest (urn : Bytes) (c : URNComponents) : Manifest :=
  [(asciiBytes "@id", .str urn),
   (asciiBytes "urn", .str urn),
   (asciiBytes "type", .str c.obj_type),
   (asciiBytes "domain", .str c.domain),
   (asciiBytes "country", .str c.state),
   (asciiBytes "local_aktenzeichen", .str c.local_aktenzeichen),
   (asciiBytes "uuid", .str c.uuid),
   (asciiBytes "label", .str (c.obj_type ++ 32 :: (c.local_aktenzeichen ++ 32 :: 40 ::
     (pyUpper c.state ++ [41]))))]

/-- URNService.resolve: parse (a ValueError propagates, modelled none),
return the stored manifest when the repository has one, otherwise try the
federation inside try/except - a truthy peer manifest is upserted and
returned, while a falsy result, a raised federation call, or a raised
upsert all fall through to the synthesized minimal manifest.  The
repository lookup itself is an external collaborator and is modelled as an
already-obtained value. -/
def serviceResolve (urn : Bytes) (store : Option Manifest)
    (fed : PyCall (Option Manifest)) (ups : PyCall Unit) : Option Manifest :=
  match urnParse urn with
  | none => none
  | some comps =>
    match store with
    | some m => some m
    | none =>
      match fed with
      | .returns (some pm) =>
        if pm.isEmpty then some (synthManifest urn comps)
        else
          match ups with
          | .returns _ => some pm
          | .raises => some (synthManifest urn comps)
      | _ => some (synthManifest urn comps)

/-! ### C4 and C5: circuit breaker and peer-mismatch guard -/

theorem assocGet_assocUpsert {α : Type} (l : List (Bytes × α)) (k : Bytes) (v : α) :
    assocGet (assocUpsert l k v) k = some v := by
  by_cases hany : l.any (fun kv => kv.1 == k)
  · simp only [assocUpsert, if_pos hany]
    induction l with
    | nil => simp at hany
    | cons a rest ih =>
      by_cases hk : a.1 == k
      · simp [assocGet, List.find?, hk]
      · have hrest : rest.any (fun kv => kv.1 == k) = true := by
          simp only [List.any_cons, Bool.or_eq_true] at hany
          rcases hany with h | h
          · exact absurd h hk
          · exact h
        have := ih hrest
        simp only [List.map_cons, if_neg hk]
        simp only [assocGet, List.find?] at this ⊢
        have hk2 : (a.1 == k) = false := by simpa using hk
        rw [hk2]
        exact this
  · simp only [assocUpsert, if_neg hany]
    induction l with
    | nil => simp [assocGet, List.find?]
    | cons a rest ih =>
      have hk : (a.1 == k) = false := by
        simp only [List.any_cons, Bool.or_eq_true] at hany
        by_contra hc
        exact hany (Or.inl (by simpa using hc))
      have hrest : ¬ rest.any (fun kv => kv.1 == k) = true := by
        intro h
        simp only [List.any_cons, Bool.or_eq_true] at hany
        exact hany (Or.inr h)
      have := ih hrest
      simp only [List.cons_append, assocGet, List.find?, hk] at this ⊢
      exact this

/-- C4.  The circuit breaker state machine of the federation resolver:
starting closed, five consecutive transport failures open the breaker at
the instant of the fifth; while open and within the 60 second cooldown a
resolve call that reaches the breaker returns nothing immediately, with no
network attempt and the shared state unchanged; once 60 seconds have
elapsed the call is let through as the one trial, whose success closes the
breaker and whose failure re-opens it with the cooldown restarted at the
current instant. -/
theorem claim_c4_circuit_breaker :
    (∀ t1 t2 t3 t4 t5 : Nat,
      List.foldl (fun b t => breakerAfter b t false) (.closed 0) [t1, t2, t3, t4, t5]
        = .opened t5) ∧
    (∀ (st : PySettings) (fs : FedState) (now : Nat) (urn stateArg : Bytes)
        (oracle : Nat → NetResult) (t : Nat) (base : Bytes),
      truthyGet fs.cache urn = none →
      truthyPeerGet (parsePeers st.peers) (pyLower stateArg) = some base →
      fs.breaker = .opened t →
      now < t + 60 →
      resolveViaPeer st fs now urn stateArg oracle = ⟨none, fs, false, []⟩) ∧
    (∀ (st : PySettings) (fs : FedState) (now : Nat) (urn stateArg : Bytes)
        (oracle : Nat → NetResult) (t : Nat) (base : Bytes),
      truthyGet fs.cache urn = none →
      truthyPeerGet (parsePeers st.peers) (pyLower stateArg) = some base →
      fs.breaker = .opened t →
      t + 60 ≤ now →
      (resolveViaPeer st fs now urn stateArg oracle).networkAttempted = true ∧
      ((fetchFromPeer urn oracle).isExn = false →
        (resolveViaPeer st fs now urn stateArg oracle).state.breaker = .closed 0) ∧
      ((fetchFromPeer urn oracle).isExn = true →
        (resolveViaPeer st fs now urn stateArg oracle).state.breaker = .opened now)) := by
  refine ⟨?_, ?_, ?_⟩
  · intro t1 t2 t3 t4 t5
    rfl
  · intro st fs now urn stateArg oracle t base h1 h2 h3 h4
    have hb : breakerAllows fs.breaker now = false := by
      rw [h3]
      simp [breakerAllows]
      omega
    simp [resolveViaPeer, h1, h2, hb]
  · intro st fs now urn stateArg oracle t base h1 h2 h3 h4
    obtain ⟨cache, brk⟩ := fs
    simp only at h1 h3
    subst h3
    have hb : breakerAllows (.opened t) now = true := by
      simp [breakerAllows]
      omega
    refine ⟨?_, ?_, ?_⟩
    · cases hF : fetchFromPeer urn oracle <;>
        simp [resolveViaPeer, h1, h2, hb, hF]
    · intro hE
      cases hF : fetchFromPeer urn oracle with
      | ok m => simp [resolveViaPeer, h1, h2, hb, hF, breakerAfter]
      | noData => simp [resolveViaPeer, h1, h2, hb, hF, breakerAfter]
      | exn =>
        rw [hF] at hE
        simp [FetchOutcome.isExn] at hE
    · intro hE
      cases hF : fetchFromPeer urn oracle with
      | ok m =>
        rw [hF] at hE
        simp [FetchOutcome.isExn] at hE
      | noData =>
        rw [hF] at hE
        simp [FetchOutcome.isExn] at hE
      | exn => simp [resolveViaPeer, h1, h2, hb, hF, breakerAfter]

/-- Concrete federation configuration for the witnesses: one peer for
jurisdiction by. -/
def cfg_fed : PySettings :=
  { nid := asciiBytes "de", state_pattern := none,
    allowed_domains := [], allowed_obj_types := [],
    catalogs_json := .empty,
    peers := asciiBytes "by=http://peer.example", fed_cache_ttl := 300 }

/-- A concrete identifier used by the federation witnesses. -/
def urnW : Bytes :=
  asciiBytes "urn:de:by:bau:bescheid:99:123e4567-e89b-12d3-a456-426614174000"

/-- Witness for C4: an open breaker at instant 10 rejects at instant 20
without touching the network, lets the trial through at instant 70, and a
transport-failing trial re-opens at 70; five failures from closed open the
breaker. -/
theorem claim_c4_circuit_breaker_witness :
    List.foldl (fun b t => breakerAfter b t false) (.closed 0) [1, 2, 3, 4, 5]
      = .opened 5 ∧
    resolveViaPeer cfg_fed ⟨[], .opened 10⟩ 20 urnW (asciiBytes "by")
      (fun _ => .transportError) = ⟨none, ⟨[], .opened 10⟩, false, []⟩ ∧
    (resolveViaPeer cfg_fed ⟨[], .opened 10⟩ 70 urnW (asciiBytes "by")
      (fun _ => .transportError)).networkAttempted = true ∧
    (resolveViaPeer cfg_fed ⟨[], .opened 10⟩ 70 urnW (asciiBytes "by")
      (fun _ => .transportError)).state.breaker = .opened 70 := by
  have h2 := claim_c4_circuit_breaker.2.1 cfg_fed ⟨[], .opened 10⟩ 20 urnW
    (asciiBytes "by") (fun _ => .transportError) 10 (asciiBytes "http://peer.example")
    rfl (by decide) rfl (by decide)
  have h3 := claim_c4_circuit_breaker.2.2 cfg_fed ⟨[], .opened 10⟩ 70 urnW
    (asciiBytes "by") (fun _ => .transportError) 10 (asciiBytes "http://peer.example")
    rfl (by decide) rfl (by decide)
  exact ⟨claim_c4_circuit_breaker.1 1 2 3 4 5, h2, h3.1, h3.2.2 rfl⟩

/-- C5.  Peer-mismatch guard: a resolve that reaches the network returns a
manifest exactly when some attempt got a 200 response whose dict body has a
urn field equal to the requested identifier; in exactly that case the
manifest is stored in the consulted cache via one set call carrying the
configured TTL before being returned; a 200 response whose urn field
differs is treated as no data: nothing returned, nothing cached. -/
theorem claim_c5_peer_mismatch :
    (∀ (urn : Bytes) (status : Nat) (body : Option PyJson) (m : Manifest),
      evalResp urn status body = .ok m →
      status = 200 ∧ body = some (.obj m) ∧
        jsonEqStr (jsonDictGet m (asciiBytes "urn")) urn = true) ∧
    (∀ (urn : Bytes) (kvs : Manifest),
      jsonEqStr (jsonDictGet kvs (asciiBytes "urn")) urn = false →
      evalResp urn 200 (some (.obj kvs)) = .noData) ∧
    (∀ (st : PySettings) (fs : FedState) (now : Nat) (urn stateArg base : Bytes)
        (oracle : Nat → NetResult),
      truthyGet fs.cache urn = none →
      truthyPeerGet (parsePeers st.peers) (pyLower stateArg) = some base →
      breakerAllows fs.breaker now = true →
      (∀ m, fetchFromPeer urn oracle = .ok m →
        (resolveViaPeer st fs now urn stateArg oracle).result = some m ∧
        (resolveViaPeer st fs now urn stateArg oracle).setCalls
          = [(urn, m, st.fed_cache_ttl)] ∧
        redisFallbackGet (resolveViaPeer st fs now urn stateArg oracle).state.cache urn
          = some m) ∧
      (∀ m, (resolveViaPeer st fs now urn stateArg oracle).result = some m →
        fetchFromPeer urn oracle = .ok m) ∧
      ((fetchFromPeer urn oracle = .noData ∨ fetchFromPeer urn oracle = .exn) →
        (resolveViaPeer st fs now urn stateArg oracle).result = none ∧
        (resolveViaPeer st fs now urn stateArg oracle).setCalls = [] ∧
        (resolveViaPeer st fs now urn stateArg oracle).state.cache = fs.cache)) := by
  refine ⟨?_, ?_, ?_⟩
  · intro urn status body m h
    simp only [evalResp] at h
    split at h
    · rename_i hs
      subst hs
      match body with
      | some (.obj kvs) =>
        simp only at h
        split at h
        · rename_i hj
          injection h with h
          subst h
          exact ⟨rfl, rfl, hj⟩
        · cases h
      | some .null | some (.bool _) | some (.num _) | some (.str _) | some (.arr _) =>
        cases h
      | none => cases h
    · cases h
  · intro urn kvs hj
    simp [evalResp, hj]
  · intro st fs now urn stateArg base oracle h1 h2 h3
    refine ⟨?_, ?_, ?_⟩
    · intro m hF
      simp [resolveViaPeer, h1, h2, h3, hF, redisFallbackGet, redisFallbackSet,
        assocGet_assocUpsert]
    · intro m hres
      cases hF : fetchFromPeer urn oracle with
      | ok m2 =>
        have h6 : (resolveViaPeer st fs now urn stateArg oracle).result = some m2 := by
          simp [resolveViaPeer, h1, h2, h3, hF]
        have h7 := h6.symm.trans hres
        injection h7 with h8
        exact congrArg FetchOutcome.ok h8
      | noData => simp [resolveViaPeer, h1, h2, h3, hF] at hres
      | exn => simp [resolveViaPeer, h1, h2, h3, hF] at hres
    · intro hF
      rcases hF with hF | hF <;> simp [resolveViaPeer, h1, h2, h3, hF]

/-- Witness for C5: a matching 200 response is returned and cached with the
configured TTL; a mismatching 200 response yields no data. -/
theorem claim_c5_peer_mismatch_witness :
    (evalResp urnW 200 (some (.obj [(asciiBytes "urn", .str urnW)]))
        = .ok [(asciiBytes "urn", .str urnW)] →
      200 = 200 ∧
      (some (.obj [(asciiBytes "urn", .str urnW)]) : Option PyJson)
        = some (.obj [(asciiBytes "urn", .str urnW)]) ∧
      jsonEqStr (jsonDictGet [(asciiBytes "urn", .str urnW)] (asciiBytes "urn")) urnW
        = true) ∧
    evalResp urnW 200 (some (.obj [(asciiBytes "urn", .str (asciiBytes "other"))]))
      = .noData ∧
    (resolveViaPeer cfg_fed ⟨[], .closed 0⟩ 0 urnW (asciiBytes "by")
      (fun _ => .resp 200 (some (.obj [(asciiBytes "urn", .str urnW)])))).setCalls
      = [(urnW, [(asciiBytes "urn", .str urnW)], 300)] := by
  have h1 := claim_c5_peer_mismatch.1 urnW 200
    (some (.obj [(asciiBytes "urn", .str urnW)])) [(asciiBytes "urn", .str urnW)]
  have h2 := claim_c5_peer_mismatch.2.1 urnW
    [(asciiBytes "urn", .str (asciiBytes "other"))] (by decide)
  have h3 := (claim_c5_peer_mismatch.2.2 cfg_fed ⟨[], .closed 0⟩ 0 urnW
    (asciiBytes "by") (asciiBytes "http://peer.example")
    (fun _ => .resp 200 (some (.obj [(asciiBytes "urn", .str urnW)])))
    rfl (by decide) rfl).1 [(asciiBytes "urn", .str urnW)] rfl
  refine ⟨h1, h2, ?_⟩
  rw [h3.2.1]
  rfl

/-! ### C7: cache TTL semantics -/

/-- The TTLCache class of vcc_urn/services/federation.py: a fixed ttl and a
dict from keys to (absolute expiry instant, value) pairs. -/
structure TTLCacheState where
  ttl : Nat
  data : List (Bytes × (Nat × Manifest))

/-- TTLCache.get: a present entry whose expiry instant is strictly before
now is popped and reported absent; otherwise the value is returned. -/
def ttlGet (c : TTLCacheState) (now : Nat) (k : Bytes) :
    Option Manifest × TTLCacheState :=
  match assocGet c.data k with
  | none => (none, c)
  | some ev =>
    if ev.1 < now then
      (none, ⟨c.ttl, c.data.filter (fun kv => !(kv.1 == k))⟩)
    else (some ev.2, c)

/-- TTLCache.set: stamp the entry with now + ttl. -/
def ttlSet (c : TTLCacheState) (now : Nat) (k : Bytes) (v : Manifest) :
    TTLCacheState :=
  ⟨c.ttl, assocUpsert c.data k (now + c.ttl, v)⟩

theorem assocGet_filter_ne {α : Type} (l : List (Bytes × α)) (k : Bytes) :
    assocGet (l.filter (fun kv => !(kv.1 == k))) k = none := by
  induction l with
  | nil => rfl
  | cons a rest ih =>
    by_cases hk : a.1 = k
    · simp [assocGet, List.filter, hk]
    · have hk2 : (a.1 == k) = false := by simpa using hk
      simp [assocGet, List.filter, hk2]

/-- A manifest set through the resolver cache fallback is returned by a
later get no matter how much time has passed and what ttl was passed:
the ttl argument is dropped. -/
def staleManifest : Manifest := [(asciiBytes "urn", .str urnW)]

/-- Counterexample to C7 as stated: the cache consulted by resolve_via_peer
is the RedisCache singleton, whose in-memory fallback ignores the ttl
argument, so an entry set with TTL=1s is still served arbitrarily far
past its expiry; concretely, a resolve a million seconds after the entry
was stored with ttl 1 is answered from the cache without any network
attempt, while the TTLCache class (instantiated as _fallback_cache but
never consulted on this path) would have evicted it. -/
theorem claim_c7_counterexample :
    redisFallbackSet [] urnW staleManifest 1
      = redisFallbackSet [] urnW staleManifest 1000000 ∧
    redisFallbackGet (redisFallbackSet [] urnW staleManifest 1) urnW
      = some staleManifest ∧
    (ttlGet (ttlSet ⟨1, []⟩ 0 urnW staleManifest) 1000000 urnW).1 = none ∧
    (resolveViaPeer cfg_fed ⟨redisFallbackSet [] urnW staleManifest 1, .closed 0⟩
        1000000 urnW (asciiBytes "by") (fun _ => .transportError)).result
      = some staleManifest ∧
    (resolveViaPeer cfg_fed ⟨redisFallbackSet [] urnW staleManifest 1, .closed 0⟩
        1000000 urnW (asciiBytes "by") (fun _ => .transportError)).networkAttempted
      = false := by
  refine ⟨rfl, rfl, rfl, ?_, ?_⟩ <;> rfl

/-- C7 (amended).  The TTLCache class does implement the claimed
semantics: a value stored at now0 with the ttl of the cache is returned by
get at any instant up to now0 + ttl and is reported absent and evicted at
any strictly later instant.  But the cache actually consulted by
resolve_via_peer is the RedisCache singleton, and its in-memory fallback
(used when Redis is unavailable) ignores the ttl argument: a stored value
is returned by every later get, it never expires. -/
theorem claim_c7_cache_ttl :
    (∀ (c : TTLCacheState) (now0 now1 : Nat) (k : Bytes) (v : Manifest),
       now1 ≤ now0 + c.ttl →
       (ttlGet (ttlSet c now0 k v) now1 k).1 = some v) ∧
    (∀ (c : TTLCacheState) (now0 now1 : Nat) (k : Bytes) (v : Manifest),
       now0 + c.ttl < now1 →
       (ttlGet (ttlSet c now0 k v) now1 k).1 = none ∧
       assocGet (ttlGet (ttlSet c now0 k v) now1 k).2.data k = none) ∧
    (∀ (mem : List (Bytes × Manifest)) (k : Bytes) (v : Manifest) (ttl : Nat),
       redisFallbackGet (redisFallbackSet mem k v ttl) k = some v) := by
  refine ⟨?_, ?_, ?_⟩
  · intro c now0 now1 k v h
    have hget : assocGet (ttlSet c now0 k v).data k = some (now0 + c.ttl, v) :=
      assocGet_assocUpsert c.data k (now0 + c.ttl, v)
    have hnot : ¬ (now0 + c.ttl < now1) := not_lt.mpr h
    simp [ttlGet, hget, hnot]
  · intro c now0 now1 k v h
    have hget : assocGet (ttlSet c now0 k v).data k = some (now0 + c.ttl, v) :=
      assocGet_assocUpsert c.data k (now0 + c.ttl, v)
    constructor
    · simp [ttlGet, hget, h]
    · simp [ttlGet, hget, h, assocGet_filter_ne]
  · intro mem k v ttl
    exact assocGet_assocUpsert mem k v

/-- Witness for C7: with ttl 300, a value stored at instant 0 is returned
at instant 300, absent and evicted at instant 301, and the fallback cache
returns it regardless. -/
theorem claim_c7_cache_ttl_witness :
    (ttlGet (ttlSet ⟨300, []⟩ 0 urnW staleManifest) 300 urnW).1
      = some staleManifest ∧
    (ttlGet (ttlSet ⟨300, []⟩ 0 urnW staleManifest) 301 urnW).1 = none ∧
    assocGet (ttlGet (ttlSet ⟨300, []⟩ 0 urnW staleManifest) 301 urnW).2.data urnW
      = none ∧
    redisFallbackGet (redisFallbackSet [] urnW staleManifest 300) urnW
      = some staleManifest := by
  have h2 := claim_c7_cache_ttl.2.1 ⟨300, []⟩ 0 301 urnW staleManifest (by decide)
  exact ⟨claim_c7_cache_ttl.1 ⟨300, []⟩ 0 300 urnW staleManifest (by decide),
    h2.1, h2.2, claim_c7_cache_ttl.2.2 [] urnW staleManifest 300⟩

/-! ### Helper lemmas for the batch resolver -/

theorem assocGet_cons {α : Type} (a : Bytes × α) (l : List (Bytes × α)) (u : Bytes) :
    assocGet (a :: l) u = if (a.1 == u) = true then some a.2 else assocGet l u := by
  simp only [assocGet, List.find?]
  cases hb : (a.1 == u) with
  | true => simp [hb]
  | false => simp [hb]

theorem assocGet_mapReplace {α : Type} (l : List (Bytes × α)) (k u : Bytes) (v : α)
    (h : k ≠ u) :
    assocGet (l.map (fun kv => if kv.1 == k then (k, v) else kv)) u = assocGet l u := by
  induction l with
  | nil => rfl
  | cons a rest ih =>
    rw [List.map_cons]
    by_cases hak : (a.1 == k) = true
    · rw [if_pos hak, assocGet_cons, assocGet_cons]
      have h2 : (k == u) = false := by simpa using h
      have h3 : (a.1 == u) = false := by
        have hk2 : a.1 = k := by simpa using hak
        rw [hk2]
        exact h2
      rw [h2, h3]
      simp only [Bool.false_eq_true, if_false]
      exact ih
    · rw [if_neg hak, assocGet_cons, assocGet_cons, ih]

theorem assocGet_assocUpsert_ne {α : Type} (l : List (Bytes × α)) (k u : Bytes)
    (v : α) (h : k ≠ u) :
    assocGet (assocUpsert l k v) u = assocGet l u := by
  unfold assocUpsert
  split
  · exact assocGet_mapReplace l k u v h
  · have h2 : (k == u) = false := by simpa using h
    simp only [assocGet, List.find?_append]
    cases hf : List.find? (fun kv => kv.1 == u) l <;>
      simp [hf, List.find?, h2]

theorem assocGet_any {α : Type} (l : List (Bytes × α)) (w : Bytes) (x : α)
    (h : assocGet l w = some x) :
    l.any (fun kv => kv.1 == w) = true := by
  cases hf : List.find? (fun kv => kv.1 == w) l with
  | none => rw [assocGet, hf] at h; cases h
  | some kv =>
    have hmem : kv ∈ l := List.mem_of_find?_eq_some hf
    have hp := List.find?_some hf
    exact List.any_eq_true.mpr ⟨kv, hmem, hp⟩

theorem foldl_cacheStep_none (fs : FedState) (u : Bytes)
    (hu : truthyGet fs.cache u = none) :
    ∀ (l : List Bytes) (acc : List (Bytes × Option Manifest)),
      assocGet acc u = none →
      assocGet (l.foldl (cacheStep fs) acc) u = none := by
  intro l
  induction l with
  | nil => intro acc h; exact h
  | cons a rest ih =>
    intro acc h
    rw [List.foldl_cons]
    apply ih
    by_cases hau : a = u
    · subst hau
      simp only [cacheStep, hu]
      exact h
    · cases hc : truthyGet fs.cache a with
      | none => simpa only [cacheStep, hc] using h
      | some m =>
        simp only [cacheStep, hc]
        rw [assocGet_assocUpsert_ne acc a u (some m) hau]
        exact h

theorem foldl_cacheStep_hit (fs : FedState) (u : Bytes) (m : Manifest)
    (hu : truthyGet fs.cache u = some m) :
    ∀ (l : List Bytes) (acc : List (Bytes × Option Manifest)),
      (u ∈ l ∨ assocGet acc u = some (some m)) →
      assocGet (l.foldl (cacheStep fs) acc) u = some (some m) := by
  intro l
  induction l with
  | nil =>
    intro acc h
    rcases h with h | h
    · cases h
    · exact h
  | cons a rest ih =>
    intro acc h
    rw [List.foldl_cons]
    apply ih
    by_cases hau : a = u
    · subst hau
      right
      simp only [cacheStep, hu]
      exact assocGet_assocUpsert acc a (some m)
    · rcases h with h | h
      · rcases List.mem_cons.mp h with h | h
        · exact absurd h.symm hau
        · exact Or.inl h
      · right
        cases hc : truthyGet fs.cache a with
        | none => simpa only [cacheStep, hc] using h
        | some m2 =>
          simp only [cacheStep, hc]
          rw [assocGet_assocUpsert_ne acc a u (some m2) hau]
          exact h

theorem assocGet_none_any {α : Type} (l : List (Bytes × α)) (w : Bytes)
    (h : assocGet l w = none) :
    l.any (fun kv => kv.1 == w) = false := by
  cases hq : l.any (fun kv => kv.1 == w) with
  | false => rfl
  | true =>
    rcases List.any_eq_true.mp hq with ⟨kv, hkv, hbeq⟩
    have hsome : (l.find? (fun kv => kv.1 == w)).isSome :=
      List.find?_isSome.mpr ⟨kv, hkv, hbeq⟩
    rcases Option.isSome_iff_exists.mp hsome with ⟨kv2, hf⟩
    simp [assocGet, hf] at h

theorem groupUpsert_members (P : Bytes → Bytes → Prop) (gs : List (Bytes × List Bytes))
    (k w : Bytes) (h : ∀ kv ∈ gs, ∀ x ∈ kv.2, P kv.1 x) (hw : P k w) :
    ∀ kv ∈ groupUpsert gs k w, ∀ x ∈ kv.2, P kv.1 x := by
  intro kv hkv x hx
  unfold groupUpsert at hkv
  split at hkv
  · rcases List.mem_map.mp hkv with ⟨kv0, hkv0, hmap⟩
    by_cases hk : (kv0.1 == k) = true
    · rw [if_pos hk] at hmap
      cases hmap
      rcases List.mem_append.mp hx with hx2 | hx2
      · exact h kv0 hkv0 x hx2
      · have hxw : x = w := by simpa using hx2
        subst hxw
        have hk2 : kv0.1 = k := by simpa using hk
        rw [hk2]
        exact hw
    · rw [if_neg hk] at hmap
      rw [← hmap] at hx ⊢
      exact h kv0 hkv0 x hx
  · rcases List.mem_append.mp hkv with hkv2 | hkv2
    · exact h kv hkv2 x hx
    · have hkv3 : kv = (k, [w]) := by simpa using hkv2
      subst hkv3
      have hxw : x = w := by simpa using hx
      subst hxw
      exact hw

theorem groupUpsert_exists (gs : List (Bytes × List Bytes)) (k w : Bytes) :
    ∃ kv ∈ groupUpsert gs k w, kv.1 = k ∧ w ∈ kv.2 := by
  unfold groupUpsert
  split
  · rename_i hany
    rcases List.any_eq_true.mp hany with ⟨kv0, hkv0, hk⟩
    refine ⟨(kv0.1, kv0.2 ++ [w]), ?_, ?_, ?_⟩
    · exact List.mem_map.mpr ⟨kv0, hkv0, by rw [if_pos hk]⟩
    · simpa using hk
    · simp
  · exact ⟨(k, [w]), by simp, rfl, by simp⟩

theorem groupUpsert_mono (gs : List (Bytes × List Bytes)) (k w s u : Bytes)
    (h : ∃ kv ∈ gs, kv.1 = s ∧ u ∈ kv.2) :
    ∃ kv ∈ groupUpsert gs k w, kv.1 = s ∧ u ∈ kv.2 := by
  rcases h with ⟨kv0, hkv0, hs, hu⟩
  unfold groupUpsert
  split
  · by_cases hk : (kv0.1 == k) = true
    · exact ⟨(kv0.1, kv0.2 ++ [w]),
        List.mem_map.mpr ⟨kv0, hkv0, by rw [if_pos hk]⟩,
        hs, List.mem_append.mpr (Or.inl hu)⟩
    · exact ⟨kv0, List.mem_map.mpr ⟨kv0, hkv0, by rw [if_neg hk]⟩, hs, hu⟩
  · exact ⟨kv0, List.mem_append.mpr (Or.inl hkv0), hs, hu⟩

theorem foldl_groupStep_members (R : Bytes → Prop) :
    ∀ (l : List Bytes), (∀ w ∈ l, R w) →
      ∀ gs, (∀ kv ∈ gs, ∀ x ∈ kv.2, stateOfUrn x = some kv.1 ∧ R x) →
      ∀ kv ∈ l.foldl groupStep gs, ∀ x ∈ kv.2, stateOfUrn x = some kv.1 ∧ R x := by
  intro l
  induction l with
  | nil => intro _ gs hgs; exact hgs
  | cons a rest ih =>
    intro hl gs hgs
    rw [List.foldl_cons]
    apply ih (fun w hw => hl w (List.mem_cons_of_mem a hw))
    cases hs : stateOfUrn a with
    | none => simpa only [groupStep, hs] using hgs
    | some s =>
      simp only [groupStep, hs]
      exact groupUpsert_members (fun t x => stateOfUrn x = some t ∧ R x) gs s a hgs
        ⟨hs, hl a (List.mem_cons_self a rest)⟩

theorem foldl_groupStep_exists (u s : Bytes) (hs : stateOfUrn u = some s) :
    ∀ (l : List Bytes) (gs : List (Bytes × List Bytes)),
      (u ∈ l ∨ ∃ kv ∈ gs, kv.1 = s ∧ u ∈ kv.2) →
      ∃ kv ∈ l.foldl groupStep gs, kv.1 = s ∧ u ∈ kv.2 := by
  intro l
  induction l with
  | nil =>
    intro gs h
    rcases h with h | h
    · cases h
    · exact h
  | cons a rest ih =>
    intro gs h
    rw [List.foldl_cons]
    apply ih
    by_cases hau : a = u
    · subst hau
      right
      simp only [groupStep, hs]
      exact groupUpsert_exists gs s a
    · rcases h with h | h
      · rcases List.mem_cons.mp h with h | h
        · exact absurd h.symm hau
        · exact Or.inl h
      · right
        cases hsa : stateOfUrn a with
        | none => simpa only [groupStep, hsa] using h
        | some s2 =>
          simp only [groupStep, hsa]
          exact groupUpsert_mono gs s2 a s u h

theorem foldl_upsertNone_preserve (u : Bytes) :
    ∀ (l : List Bytes) (r : List (Bytes × Option Manifest)), u ∉ l →
      assocGet (l.foldl (fun r2 w => assocUpsert r2 w none) r) u = assocGet r u := by
  intro l
  induction l with
  | nil => intro r _; rfl
  | cons a rest ih =>
    intro r hu
    rw [List.foldl_cons]
    have hau : a ≠ u := fun he => hu (he ▸ List.mem_cons_self a rest)
    rw [ih _ (fun he => hu (List.mem_cons_of_mem a he))]
    exact assocGet_assocUpsert_ne r a u none hau

theorem foldl_upsertNone_mem (u : Bytes) :
    ∀ (l : List Bytes) (r : List (Bytes × Option Manifest)),
      (u ∈ l ∨ assocGet r u = some none) →
      assocGet (l.foldl (fun r2 w => assocUpsert r2 w none) r) u = some none := by
  intro l
  induction l with
  | nil =>
    intro r h
    rcases h with h | h
    · cases h
    · exact h
  | cons a rest ih =>
    intro r h
    rw [List.foldl_cons]
    apply ih
    by_cases hau : a = u
    · subst hau
      right
      exact assocGet_assocUpsert r a none
    · rcases h with h | h
      · rcases List.mem_cons.mp h with h | h
        · exact absurd h.symm hau
        · exact Or.inl h
      · right
        rw [assocGet_assocUpsert_ne r a u none hau]
        exact h

theorem processUrns_results_preserve (st : PySettings) (now : Nat)
    (oracle : Bytes → Nat → NetResult) (state u : Bytes) :
    ∀ (l : List Bytes) (acc : BatchAcc), u ∉ l →
      assocGet (processUrns st now oracle state l acc).results u
        = assocGet acc.results u := by
  intro l
  induction l with
  | nil => intro acc _; rfl
  | cons a rest ih =>
    intro acc hu
    have hau : a ≠ u := fun he => hu (he ▸ List.mem_cons_self a rest)
    simp only [processUrns]
    rw [ih _ (fun he => hu (List.mem_cons_of_mem a he))]
    exact assocGet_assocUpsert_ne acc.results a u _ hau

theorem processUrns_attempted_sub (st : PySettings) (now : Nat)
    (oracle : Bytes → Nat → NetResult) (state : Bytes) :
    ∀ (l : List Bytes) (acc : BatchAcc) (w : Bytes),
      w ∈ (processUrns st now oracle state l acc).attempted →
      w ∈ acc.attempted ∨ w ∈ l := by
  intro l
  induction l with
  | nil => intro acc w h; exact Or.inl h
  | cons a rest ih =>
    intro acc w h
    simp only [processUrns] at h
    rcases ih _ w h with h2 | h2
    · rcases List.mem_append.mp h2 with h3 | h3
      · exact Or.inl h3
      · right
        cases hn : (resolveViaPeer st acc.fed now a state (oracle a)).networkAttempted with
        | false =>
          rw [hn] at h3
          simp at h3
        | true =>
          rw [hn] at h3
          simp at h3
          rw [h3]
          exact List.mem_cons_self a rest
    · exact Or.inr (List.mem_cons_of_mem a h2)

theorem processGroups_results_preserve (st : PySettings) (now : Nat)
    (oracle : Bytes → Nat → NetResult) (u : Bytes) :
    ∀ (gl : List (Bytes × List Bytes)) (acc : BatchAcc),
      (∀ kv ∈ gl, u ∉ kv.2) →
      assocGet (processGroups st now oracle gl acc).results u
        = assocGet acc.results u := by
  intro gl
  induction gl with
  | nil => intro acc _; rfl
  | cons g rest ih =>
    intro acc hg
    obtain ⟨state, gurns⟩ := g
    have hgu : u ∉ gurns := hg (state, gurns) (List.mem_cons_self _ _)
    have hrest : ∀ kv ∈ rest, u ∉ kv.2 :=
      fun kv hkv => hg kv (List.mem_cons_of_mem _ hkv)
    cases hp : truthyPeerGet (parsePeers st.peers) state with
    | none =>
      simp only [processGroups, hp]
      rw [ih _ hrest]
      exact foldl_upsertNone_preserve u gurns acc.results hgu
    | some b =>
      simp only [processGroups, hp]
      rw [ih _ hrest]
      exact processUrns_results_preserve st now oracle state u gurns acc hgu

theorem processGroups_nopeer (st : PySettings) (now : Nat)
    (oracle : Bytes → Nat → NetResult) (u : Bytes) :
    ∀ (gl : List (Bytes × List Bytes)) (acc : BatchAcc),
      (∀ kv ∈ gl, u ∈ kv.2 → truthyPeerGet (parsePeers st.peers) kv.1 = none) →
      ((∃ kv ∈ gl, u ∈ kv.2) ∨ assocGet acc.results u = some none) →
      assocGet (processGroups st now oracle gl acc).results u = some none := by
  intro gl
  induction gl with
  | nil =>
    intro acc _ h
    rcases h with ⟨kv, hkv, _⟩ | h
    · cases hkv
    · exact h
  | cons g rest ih =>
    intro acc hg h
    obtain ⟨state, gurns⟩ := g
    have hrest : ∀ kv ∈ rest, u ∈ kv.2 → truthyPeerGet (parsePeers st.peers) kv.1 = none :=
      fun kv hkv => hg kv (List.mem_cons_of_mem _ hkv)
    by_cases hu : u ∈ gurns
    · have hpn : truthyPeerGet (parsePeers st.peers) state = none :=
        hg (state, gurns) (List.mem_cons_self _ _) hu
      simp only [processGroups, hpn]
      apply ih _ hrest
      right
      exact foldl_upsertNone_mem u gurns acc.results (Or.inl hu)
    · cases hp : truthyPeerGet (parsePeers st.peers) state with
      | none =>
        simp only [processGroups, hp]
        apply ih _ hrest
        rcases h with ⟨kv, hkv, hukv⟩ | h
        · rcases List.mem_cons.mp hkv with he | he
          · rw [he] at hukv
            exact absurd hukv hu
          · exact Or.inl ⟨kv, he, hukv⟩
        · right
          rw [foldl_upsertNone_preserve u gurns acc.results hu]
          exact h
      | some b =>
        simp only [processGroups, hp]
        apply ih _ hrest
        rcases h with ⟨kv, hkv, hukv⟩ | h
        · rcases List.mem_cons.mp hkv with he | he
          · rw [he] at hukv
            exact absurd hukv hu
          · exact Or.inl ⟨kv, he, hukv⟩
        · right
          rw [processUrns_results_preserve st now oracle state u gurns acc hu]
          exact h

theorem processGroups_attempted_sub (st : PySettings) (now : Nat)
    (oracle : Bytes → Nat → NetResult) :
    ∀ (gl : List (Bytes × List Bytes)) (acc : BatchAcc) (w : Bytes),
      w ∈ (processGroups st now oracle gl acc).attempted →
      w ∈ acc.attempted ∨ ∃ kv ∈ gl, w ∈ kv.2 ∧
        (truthyPeerGet (parsePeers st.peers) kv.1).isSome = true := by
  intro gl
  induction gl with
  | nil => intro acc w h; exact Or.inl h
  | cons g rest ih =>
    intro acc w h
    obtain ⟨state, gurns⟩ := g
    cases hp : truthyPeerGet (parsePeers st.peers) state with
    | none =>
      simp only [processGroups, hp] at h
      rcases ih _ w h with h2 | ⟨kv, hkv, hw, hps⟩
      · exact Or.inl h2
      · exact Or.inr ⟨kv, List.mem_cons_of_mem _ hkv, hw, hps⟩
    | some b =>
      simp only [processGroups, hp] at h
      rcases ih _ w h with h2 | ⟨kv, hkv, hw, hps⟩
      · rcases processUrns_attempted_sub st now oracle state gurns acc w h2 with h3 | h3
        · exact Or.inl h3
        · exact Or.inr ⟨(state, gurns), List.mem_cons_self _ _, h3, by rw [hp]; rfl⟩
      · exact Or.inr ⟨kv, List.mem_cons_of_mem _ hkv, hw, hps⟩

theorem resolveBatch_eq (st : PySettings) (fs : FedState) (now : Nat)
    (urns : List Bytes) (oracle : Bytes → Nat → NetResult) :
    resolveBatch st fs now urns oracle =
      processGroups st now oracle
        ((urns.filter (fun x =>
            !((urns.foldl (cacheStep fs) []).any (fun kv => kv.1 == x)))).foldl
          groupStep [])
        ⟨urns.foldl (cacheStep fs) [], fs, []⟩ := rfl

theorem truthyPeerGet_eq_some (peers : List (Bytes × Bytes)) (k b : Bytes)
    (h : truthyPeerGet peers k = some b) : assocGet peers k = some b := by
  cases ha : assocGet peers k with
  | none => simp [truthyPeerGet, ha] at h
  | some b0 =>
    simp only [truthyPeerGet, ha] at h
    by_cases he : b0.isEmpty = true
    · rw [if_pos he] at h
      cases h
    · rw [if_neg he] at h
      exact h

theorem truthyPeerGet_none_of (peers : List (Bytes × Bytes)) (k : Bytes)
    (h : assocGet peers k = none) : truthyPeerGet peers k = none := by
  unfold truthyPeerGet
  rw [h]

/-! ### C8, C9, C10: batch grouping, soft-failure fallback, missing keys -/

/-- Witness identifiers for the batch claims: nrwU has jurisdiction nrw (no
peer in cfg_fed), byU has jurisdiction by (peer configured). -/
def nrwU : Bytes :=
  asciiBytes "urn:de:nrw:bau:bescheid:7:00000000-0000-0000-0000-000000000000"

def byU : Bytes :=
  asciiBytes "urn:de:by:bau:bescheid:8:00000000-0000-0000-0000-000000000001"

/-- Witness federation state: urnW already cached. -/
def fsW8 : FedState := ⟨[(urnW, staleManifest)], .closed 0⟩

def urnsW8 : List Bytes := [urnW, nrwU, byU]

/-- A network where every attempt times out. -/
def batchOracle : Bytes → Nat → NetResult := fun _ _ => .transportError

/-- C8.  Batch grouping of resolve_batch: (i) an input identifier with a
truthy cached manifest is answered from the cache and never attempted over
the network; (ii) an uncached input identifier whose jurisdiction (third
colon part, lowercased) has no configured peer is mapped to None without a
network attempt; (iii) every identifier attempted over the network is an
uncached input identifier whose jurisdiction names a configured peer. -/
theorem claim_c8_batch_grouping :
    (∀ (st : PySettings) (fs : FedState) (now : Nat) (urns : List Bytes)
       (oracle : Bytes → Nat → NetResult) (u : Bytes) (m : Manifest),
       u ∈ urns → truthyGet fs.cache u = some m →
       assocGet (resolveBatch st fs now urns oracle).results u = some (some m) ∧
       u ∉ (resolveBatch st fs now urns oracle).attempted) ∧
    (∀ (st : PySettings) (fs : FedState) (now : Nat) (urns : List Bytes)
       (oracle : Bytes → Nat → NetResult) (u s : Bytes),
       u ∈ urns → truthyGet fs.cache u = none →
       stateOfUrn u = some s → assocGet (parsePeers st.peers) s = none →
       assocGet (resolveBatch st fs now urns oracle).results u = some none ∧
       u ∉ (resolveBatch st fs now urns oracle).attempted) ∧
    (∀ (st : PySettings) (fs : FedState) (now : Nat) (urns : List Bytes)
       (oracle : Bytes → Nat → NetResult) (u : Bytes),
       u ∈ (resolveBatch st fs now urns oracle).attempted →
       u ∈ urns ∧ truthyGet fs.cache u = none ∧
       ∃ s, stateOfUrn u = some s ∧
         (assocGet (parsePeers st.peers) s).isSome = true) := by
  refine ⟨?_, ?_, ?_⟩
  · intro st fs now urns oracle u m hu hc
    have hres0 : assocGet (urns.foldl (cacheStep fs) []) u = some (some m) :=
      foldl_cacheStep_hit fs u m hc urns [] (Or.inl hu)
    have hany : (urns.foldl (cacheStep fs) []).any (fun kv => kv.1 == u) = true :=
      assocGet_any _ u (some m) hres0
    have hmem := foldl_groupStep_members (fun x => x ∈ (urns.filter (fun x2 => !((urns.foldl (cacheStep fs) []).any (fun kv => kv.1 == x2)))))
      (urns.filter (fun x2 => !((urns.foldl (cacheStep fs) []).any (fun kv => kv.1 == x2)))) (fun w hw => hw) [] (by intro kv hkv; cases hkv)
    have hnotin : ∀ kv ∈ (urns.filter (fun x2 => !((urns.foldl (cacheStep fs) []).any (fun kv => kv.1 == x2)))).foldl groupStep [], u ∉ kv.2 := by
      intro kv hkv hx
      have h2 := (hmem kv hkv u hx).2
      have h3 := (List.mem_filter.mp h2).2
      rw [hany] at h3
      simp at h3
    rw [resolveBatch_eq]
    constructor
    · rw [processGroups_results_preserve st now oracle u _ _ hnotin]
      exact hres0
    · intro hat
      rcases processGroups_attempted_sub st now oracle _ _ u hat with h2 | ⟨kv, hkv, hw, hps⟩
      · cases h2
      · exact (hnotin kv hkv) hw
  · intro st fs now urns oracle u s hu hc hs hp
    have hres0 : assocGet (urns.foldl (cacheStep fs) []) u = none :=
      foldl_cacheStep_none fs u hc urns [] rfl
    have hanyf : (urns.foldl (cacheStep fs) []).any (fun kv => kv.1 == u) = false :=
      assocGet_none_any _ u hres0
    have humem : u ∈ (urns.filter (fun x2 => !((urns.foldl (cacheStep fs) []).any (fun kv => kv.1 == x2)))) := by
      apply List.mem_filter.mpr
      refine ⟨hu, ?_⟩
      rw [hanyf]
      rfl
    have hmem := foldl_groupStep_members (fun x => x ∈ (urns.filter (fun x2 => !((urns.foldl (cacheStep fs) []).any (fun kv => kv.1 == x2)))))
      (urns.filter (fun x2 => !((urns.foldl (cacheStep fs) []).any (fun kv => kv.1 == x2)))) (fun w hw => hw) [] (by intro kv hkv; cases hkv)
    have hexists := foldl_groupStep_exists u s hs
      (urns.filter (fun x2 => !((urns.foldl (cacheStep fs) []).any (fun kv => kv.1 == x2)))) [] (Or.inl humem)
    have hnope : ∀ kv ∈ (urns.filter (fun x2 => !((urns.foldl (cacheStep fs) []).any (fun kv => kv.1 == x2)))).foldl groupStep [],
        u ∈ kv.2 → truthyPeerGet (parsePeers st.peers) kv.1 = none := by
      intro kv hkv hx
      have h2 := (hmem kv hkv u hx).1
      rw [hs] at h2
      injection h2 with h3
      rw [← h3]
      exact truthyPeerGet_none_of (parsePeers st.peers) s hp
    rw [resolveBatch_eq]
    constructor
    · apply processGroups_nopeer st now oracle u _ _ hnope
      left
      rcases hexists with ⟨kv, hkv, _, hukv⟩
      exact ⟨kv, hkv, hukv⟩
    · intro hat
      rcases processGroups_attempted_sub st now oracle _ _ u hat with h2 | ⟨kv, hkv, hw, hps⟩
      · cases h2
      · have hpn := hnope kv hkv hw
        rw [hpn] at hps
        exact Bool.noConfusion hps
  · intro st fs now urns oracle u hat
    rw [resolveBatch_eq] at hat
    rcases processGroups_attempted_sub st now oracle _ _ u hat with h2 | ⟨kv, hkv, hw, hps⟩
    · cases h2
    · have hmem := foldl_groupStep_members (fun x => x ∈ (urns.filter (fun x2 => !((urns.foldl (cacheStep fs) []).any (fun kv => kv.1 == x2)))))
        (urns.filter (fun x2 => !((urns.foldl (cacheStep fs) []).any (fun kv => kv.1 == x2)))) (fun w hw2 => hw2) [] (by intro kv2 hkv2; cases hkv2) kv hkv u hw
      have hurns := (List.mem_filter.mp hmem.2).1
      have hfilt := (List.mem_filter.mp hmem.2).2
      have htc : truthyGet fs.cache u = none := by
        cases htc2 : truthyGet fs.cache u with
        | none => rfl
        | some m =>
          have hhit := foldl_cacheStep_hit fs u m htc2 urns [] (Or.inl hurns)
          have hany := assocGet_any _ u (some m) hhit
          rw [hany] at hfilt
          simp at hfilt
      rcases Option.isSome_iff_exists.mp hps with ⟨b, hb⟩
      have hab := truthyPeerGet_eq_some (parsePeers st.peers) kv.1 b hb
      refine ⟨hurns, htc, kv.1, hmem.1, ?_⟩
      rw [hab]
      rfl

/-- Witness for C8 on the spec scenario: with a peer only for by, the
cached urnW is answered from the cache, nrwU is mapped to None without a
network attempt, and byU (the only attempted identifier) is an uncached
input whose jurisdiction has a configured peer. -/
theorem claim_c8_batch_grouping_witness :
    (assocGet (resolveBatch cfg_fed fsW8 0 urnsW8 batchOracle).results urnW
        = some (some staleManifest) ∧
      urnW ∉ (resolveBatch cfg_fed fsW8 0 urnsW8 batchOracle).attempted) ∧
    (assocGet (resolveBatch cfg_fed fsW8 0 urnsW8 batchOracle).results nrwU
        = some none ∧
      nrwU ∉ (resolveBatch cfg_fed fsW8 0 urnsW8 batchOracle).attempted) ∧
    (byU ∈ urnsW8 ∧ truthyGet fsW8.cache byU = none ∧
      ∃ s, stateOfUrn byU = some s ∧
        (assocGet (parsePeers cfg_fed.peers) s).isSome = true) := by
  refine ⟨claim_c8_batch_grouping.1 cfg_fed fsW8 0 urnsW8 batchOracle urnW
      staleManifest (by decide) rfl,
    claim_c8_batch_grouping.2.1 cfg_fed fsW8 0 urnsW8 batchOracle nrwU
      (asciiBytes "nrw") (by decide) rfl (by decide) (by decide),
    claim_c8_batch_grouping.2.2 cfg_fed fsW8 0 urnsW8 batchOracle byU (by decide)⟩

/-- C9.  Soft-failure fallback of URNService.resolve: an identifier that
parses successfully always yields a manifest; when the store is empty and
the federation yields nothing (raises, returns None, or returns a falsy
manifest), the returned manifest is the one synthesized from the
components, and its urn field is the input identifier. -/
theorem claim_c9_soft_failure :
    ∀ (urn : Bytes) (comps : URNComponents) (store : Option Manifest)
      (fed : PyCall (Option Manifest)) (ups : PyCall Unit),
      urnParse urn = some comps →
      (∃ m : Manifest, serviceResolve urn store fed ups = some m) ∧
      jsonDictGet (synthManifest urn comps) (asciiBytes "urn") = some (.str urn) ∧
      (store = none →
        (fed = .raises ∨ fed = .returns none ∨
         (∃ m0 : Manifest, fed = .returns (some m0) ∧ m0.isEmpty = true)) →
        serviceResolve urn store fed ups = some (synthManifest urn comps)) := by
  intro urn comps store fed ups hp
  refine ⟨?_, rfl, ?_⟩
  · cases store with
    | some m => exact ⟨m, by simp [serviceResolve, hp]⟩
    | none =>
      cases fed with
      | raises => exact ⟨synthManifest urn comps, by simp [serviceResolve, hp]⟩
      | returns v =>
        cases v with
        | none => exact ⟨synthManifest urn comps, by simp [serviceResolve, hp]⟩
        | some pm =>
          by_cases he : pm.isEmpty = true
          · exact ⟨synthManifest urn comps, by simp [serviceResolve, hp, he]⟩
          · cases ups with
            | returns u2 => exact ⟨pm, by simp [serviceResolve, hp, he]⟩
            | raises => exact ⟨synthManifest urn comps, by simp [serviceResolve, hp, he]⟩
  · intro hstore hfed
    subst hstore
    rcases hfed with hfed | hfed | ⟨m0, hfed, hm0⟩ <;> subst hfed
    · simp [serviceResolve, hp]
    · simp [serviceResolve, hp]
    · simp [serviceResolve, hp, hm0]

/-- The components of urnW as URN._parse returns them. -/
def compsW9 : URNComponents :=
  ⟨asciiBytes "de", asciiBytes "by", asciiBytes "bau", asciiBytes "bescheid",
   asciiBytes "99", asciiBytes "123e4567-e89b-12d3-a456-426614174000", none⟩

/-- Witness for C9: with an empty store and a federation that returns
None, resolving urnW yields the synthesized manifest, whose urn field is
urnW itself. -/
theorem claim_c9_soft_failure_witness :
    (∃ m : Manifest,
      serviceResolve urnW none (.returns none) (.returns ()) = some m) ∧
    jsonDictGet (synthManifest urnW compsW9) (asciiBytes "urn")
      = some (.str urnW) ∧
    serviceResolve urnW none (.returns none) (.returns ())
      = some (synthManifest urnW compsW9) := by
  have h := claim_c9_soft_failure urnW compsW9 none (.returns none) (.returns ())
    (by decide)
  exact ⟨h.1, h.2.1, h.2.2 rfl (Or.inr (Or.inl rfl))⟩

/-- C10.  An input identifier that is not satisfied from the cache and has
fewer than three colon-separated parts is silently dropped by
resolve_batch: the returned results dict has no entry for it at all. -/
theorem claim_c10_batch_missing_key :
    ∀ (st : PySettings) (fs : FedState) (now : Nat) (urns : List Bytes)
      (oracle : Bytes → Nat → NetResult) (u : Bytes),
      truthyGet fs.cache u = none →
      stateOfUrn u = none →
      assocGet (resolveBatch st fs now urns oracle).results u = none := by
  intro st fs now urns oracle u hc hs
  have hmem := foldl_groupStep_members (fun x => x ∈ (urns.filter (fun x2 => !((urns.foldl (cacheStep fs) []).any (fun kv => kv.1 == x2)))))
    (urns.filter (fun x2 => !((urns.foldl (cacheStep fs) []).any (fun kv => kv.1 == x2)))) (fun w hw => hw) [] (by intro kv hkv; cases hkv)
  have hnotin : ∀ kv ∈ (urns.filter (fun x2 => !((urns.foldl (cacheStep fs) []).any (fun kv => kv.1 == x2)))).foldl groupStep [], u ∉ kv.2 := by
    intro kv hkv hx
    have h2 := (hmem kv hkv u hx).1
    rw [hs] at h2
    cases h2
  rw [resolveBatch_eq]
  rw [processGroups_results_preserve st now oracle u _ _ hnotin]
  exact foldl_cacheStep_none fs u hc urns [] rfl

/-- An input with a single colon-free segment. -/
def badU : Bytes := asciiBytes "not-an-urn"

/-- Witness for C10: badU is an input to the batch but absent from the
returned results dict, so the key set is a strict subset of the input. -/
theorem claim_c10_batch_missing_key_witness :
    assocGet (resolveBatch cfg_fed ⟨[], .closed 0⟩ 0 [badU] batchOracle).results badU
      = none :=
  claim_c10_batch_missing_key cfg_fed ⟨[], .closed 0⟩ 0 [badU] batchOracle badU rfl
    (by decide)

end VccUrn
